import Mathlib

set_option maxRecDepth 4000

/-!
Verification of the Ez-ERD schema interchange engine.

This file gives a shallow embedding of the core conversion code of the
repository and proves properties of it:

* `DDLGenerator` (src/app/utils/DDLGenerator.ts): schema graph → Snowflake DDL
  text, with its identifier formatter and reserved-word check.
* `DDLParser` (the DDL parser source file): DDL text → schema graph, with its
  character-level statement splitter and its regex-driven extraction.
* `YAMLParser` (second class in src/app/utils/DDLGenerator.ts): dbt-style YAML
  manifests → schema graph.

Modelling conventions:

* JavaScript strings are Lean `String`s (`List Char` data).  All inputs the
  theorems touch are ASCII, where `Char.toUpper`/`Char.toLower` agree with
  JavaScript `toUpperCase`/`toLowerCase`; the embeddings `jsToUpper` and
  `jsToLower` below make the character map explicit.
* `uuidv4()` identifiers are minted from a `Nat` counter threaded through the
  parser state: all theorems are stated modulo ids, as the spec requires.
* `Math.random()` layout positions are modelled as `(0, 0)`; the spec excludes
  layout from every property.
* JavaScript truthiness of optional strings (`undefined` and `""` are falsy)
  is the function `jsTruthy`.
* Each JavaScript regular expression used by the source is embedded as a
  dedicated Lean function implementing that one pattern's matching semantics
  (leftmost match, alternative order, greediness), stated next to the original
  pattern in a comment.
-/

/-! ## JavaScript string helpers -/

/-- JavaScript `toUpperCase`, restricted to the ASCII behaviour. -/
def jsToUpper (s : String) : String := ⟨s.data.map Char.toUpper⟩

/-- JavaScript `toLowerCase`, restricted to the ASCII behaviour. -/
def jsToLower (s : String) : String := ⟨s.data.map Char.toLower⟩

/-- JavaScript truthiness of an optional string: `undefined` and `""` are
falsy, every other string is truthy. -/
def jsTruthy : Option String → Bool
  | none => false
  | some s => !(s == "")

/-- JavaScript `trim` (ASCII whitespace). -/
def jsTrim (s : String) : String :=
  ⟨(((s.data.dropWhile Char.isWhitespace).reverse).dropWhile Char.isWhitespace).reverse⟩

/-- JavaScript `split(sep)` for a non-empty separator (auxiliary, fuelled by
the input length). -/
def jsSplitGo (sep : List Char) : Nat → List Char → List Char → List (List Char)
  | 0, acc, l => [acc.reverse ++ l]
  | fuel + 1, acc, l =>
      if sep.isPrefixOf l then
        acc.reverse :: jsSplitGo sep fuel [] (l.drop sep.length)
      else
        match l with
        | [] => [acc.reverse]
        | c :: rest => jsSplitGo sep fuel (c :: acc) rest

/-- JavaScript `split(sep)` for a non-empty separator. -/
def jsSplit (s : String) (sep : String) : List String :=
  (jsSplitGo sep.data (s.data.length + 1) [] s.data).map (fun l => ⟨l⟩)

/-- JavaScript `Array.join(sep)`. -/
def jsJoin (sep : String) : List String → String
  | [] => ""
  | [x] => x
  | x :: y :: rest => x ++ sep ++ jsJoin sep (y :: rest)

/-- Boolean string prefix test over the character data. -/
def strBeginsWith (s p : String) : Bool := List.isPrefixOf p.data s.data

/-- Character class `[a-zA-Z0-9_]` (JavaScript `\w`). -/
def isWordChar (c : Char) : Bool :=
  (('a' ≤ c && c ≤ 'z') || ('A' ≤ c && c ≤ 'Z') || ('0' ≤ c && c ≤ '9') || c == '_')

/-- JavaScript `\s` for the characters that occur in this code base:
space, tab, newline, carriage return, form feed, vertical tab. -/
def isJsSpace (c : Char) : Bool :=
  (c == ' ' || c == '\t' || c == '\n' || c == '\r' ||
    c == Char.ofNat 12 || c == Char.ofNat 11)

/-! ## Schema graph model (src/app/utils/types.ts) -/

/-- Object kind enum from `types.ts` (`tableType` union). -/
inductive TableKind where
  | TABLE
  | VIEW
  | MATERIALIZED_VIEW
  | DYNAMIC_TABLE
  | ICEBERG_TABLE
deriving DecidableEq, Repr

/-- The SQL keyword spelled by a `TableKind`. -/
def TableKind.keyword : TableKind → String
  | .TABLE => "TABLE"
  | .VIEW => "VIEW"
  | .MATERIALIZED_VIEW => "MATERIALIZED_VIEW"
  | .DYNAMIC_TABLE => "DYNAMIC_TABLE"
  | .ICEBERG_TABLE => "ICEBERG_TABLE"

/-- `Column` from `types.ts`. Ids are minted `Nat`s. -/
structure Column where
  id : Nat
  name : String
  dataType : String
  isPrimaryKey : Bool
  isForeignKey : Bool
  isNullable : Bool
  referencedTable : Option String := none
  referencedColumn : Option String := none
  comment : Option String := none
  tags : Option (List String) := none
deriving DecidableEq, Repr

/-- Payload of a table node (`NodeType.data` in `types.ts`). -/
structure TableData where
  label : String
  columns : List Column
  comment : Option String := none
  tags : Option (List String) := none
  tableType : Option TableKind := none
deriving DecidableEq, Repr

/-- `NodeType` from `types.ts` (a table node). -/
structure NodeType where
  id : Nat
  position : Nat × Nat
  data : TableData
deriving DecidableEq, Repr

/-- `ERDNode = NodeType | DomainNodeType` from `types.ts`. -/
inductive ERDNode where
  | table (n : NodeType)
  | domain (id : Nat) (label : String)
deriving DecidableEq, Repr

/-- Relationship cardinality enum from `types.ts`. -/
inductive RelKind where
  | oneToOne
  | oneToMany
  | manyToMany
deriving DecidableEq, Repr

/-- `EdgeType` from `types.ts`. -/
structure EdgeType where
  id : Nat
  source : Nat
  target : Nat
  sourceHandle : String := ""
  targetHandle : String := ""
  relationshipType : RelKind
deriving DecidableEq, Repr

/-- Foreign-key record inside `SnowflakeTable` (`types.ts`). -/
structure ForeignKeySpec where
  columns : List String
  referencedTable : String
  referencedColumns : List String
deriving DecidableEq, Repr

/-- `SnowflakeTable` from `types.ts`.  The optional `comment`, `tags` and
`tableType` fields exist in the type but are never populated or read by the
generator code. -/
structure SnowflakeTable where
  name : String
  columns : List Column
  primaryKey : Option (List String) := none
  foreignKeys : Option (List ForeignKeySpec) := none
  comment : Option String := none
  tags : Option (List String) := none
  tableType : Option TableKind := none
deriving DecidableEq, Repr

/-! ## DDL generator (class DDLGenerator in src/app/utils/DDLGenerator.ts) -/

/-- The fixed reserved-word list of `DDLGenerator.isReservedWord`. -/
def reservedWords : List String :=
  ["table", "select", "from", "where", "insert", "update", "delete",
   "create", "alter", "drop", "grant", "revoke", "order", "by", "group",
   "having", "join", "left", "right", "outer", "inner", "full", "on",
   "union", "all", "as", "distinct", "limit", "offset", "with", "database",
   "schema", "warehouse", "role", "user", "password", "account", "view",
   "function", "procedure", "pipe", "stage", "file", "format", "sequence"]

/-- `DDLGenerator.isReservedWord`: membership of the lower-cased word in the
fixed list. -/
def isReservedWord (word : String) : Bool :=
  reservedWords.contains (jsToLower word)

/-- Test of the regex `/[^a-zA-Z0-9_]/` on an identifier. -/
def hasSpecialChar (s : String) : Bool :=
  s.data.any (fun c => !isWordChar c)

/-- `DDLGenerator.formatIdentifier`: quote when the name has a character
outside `[a-zA-Z0-9_]` or is a reserved word, otherwise upper-case. -/
def formatIdentifier (identifier : String) : String :=
  if hasSpecialChar identifier || isReservedWord identifier then
    "\"" ++ identifier ++ "\""
  else
    jsToUpper identifier

/-- `DDLGenerator.nodesToTables`, for one node. -/
def nodeToTable (node : NodeType) : SnowflakeTable :=
  let primaryKeys := (node.data.columns.filter (·.isPrimaryKey)).map (·.name)
  let foreignKeys := (node.data.columns.filter
      (fun col => col.isForeignKey && jsTruthy col.referencedTable &&
        jsTruthy col.referencedColumn)).map
      (fun col => ForeignKeySpec.mk [col.name] (col.referencedTable.getD "")
        [col.referencedColumn.getD ""])
  { name := node.data.label
    columns := node.data.columns
    primaryKey := if primaryKeys.length > 0 then some primaryKeys else none
    foreignKeys := if foreignKeys.length > 0 then some foreignKeys else none }

/-- `DDLGenerator.nodesToTables`. -/
def nodesToTables (nodes : List NodeType) : List SnowflakeTable :=
  nodes.map nodeToTable

/-- `DDLGenerator.generateTableDDL`: the `CREATE OR REPLACE TABLE` statement
for one table.  Note the source always writes the keyword `TABLE` and never
reads `tableType`, `comment` or `tags`. -/
def generateTableDDL (table : SnowflakeTable) : String :=
  let columnDefinitions := table.columns.map (fun column =>
    let colDef := "  " ++ formatIdentifier column.name ++ " " ++ column.dataType
    if !column.isNullable then colDef ++ " NOT NULL" else colDef)
  let ddl := "CREATE OR REPLACE TABLE " ++ formatIdentifier table.name ++ " (\n"
    ++ jsJoin ",\n" columnDefinitions
  let ddl :=
    match table.primaryKey with
    | some pk =>
        if pk.length > 0 then
          ddl ++ ",\n  PRIMARY KEY ("
            ++ jsJoin ", " (pk.map formatIdentifier) ++ ")"
        else ddl
    | none => ddl
  ddl ++ "\n);"

/-- `DDLGenerator.generateForeignKeyDDL`.  The `ADD FOREIGN KEY` clause is
emitted on a fresh line after the table name. -/
def generateForeignKeyDDL (tableName : String) (foreignKey : ForeignKeySpec) :
    String :=
  let fkColumns := jsJoin ", " (foreignKey.columns.map formatIdentifier)
  let refColumns := jsJoin ", "
    (foreignKey.referencedColumns.map formatIdentifier)
  "ALTER TABLE " ++ formatIdentifier tableName ++ "\n" ++
    "  ADD FOREIGN KEY (" ++ fkColumns ++ ")\n" ++
    "  REFERENCES " ++ formatIdentifier foreignKey.referencedTable
    ++ " (" ++ refColumns ++ ");"

/-- The `DDLGenerator` object: constructor stores `nodes` and `edges` and
computes `tables = nodesToTables(nodes)`. -/
structure DDLGenerator where
  nodes : List NodeType
  edges : List EdgeType
  tables : List SnowflakeTable
deriving Repr

/-- The `DDLGenerator` constructor. -/
def DDLGenerator.make (nodes : List NodeType) (edges : List EdgeType) :
    DDLGenerator :=
  ⟨nodes, edges, nodesToTables nodes⟩

/-- `DDLGenerator.generateSnowflakeDDL`: first all table creation statements
in input order, then all foreign-key statements in input order. -/
def DDLGenerator.generateSnowflakeDDL (g : DDLGenerator) : String :=
  let ddl := g.tables.foldl (fun acc table => acc ++ generateTableDDL table ++ "\n\n") ""
  g.tables.foldl (fun acc table =>
    match table.foreignKeys with
    | some fks =>
        if fks.length > 0 then
          fks.foldl (fun a fk => a ++ generateForeignKeyDDL table.name fk ++ "\n\n") acc
        else acc
    | none => acc) ddl

/-- Convenience entry point `generate(objects, relationships)`. -/
def generateDDL (nodes : List NodeType) (edges : List EdgeType) : String :=
  (DDLGenerator.make nodes edges).generateSnowflakeDDL

/-! ## Statement splitter (DDLParser.splitStatements)

Direct transcription of the character loop: state is whether we are inside a
quoted string (with its quote character), whether we are inside a `--` line
comment, the current statement accumulator and the list of finished
statements.  The loop reads the raw previous character (for the backslash
escape check) and the next character (for comment starts). -/

/-- One statement-splitter step plus recursion over the remaining input.
`prev` is the previous input character (`none` at the start). -/
def splitGo (prev : Option Char) (inQuote : Bool) (quoteChar : Char)
    (inComment : Bool) (cur : List Char) (acc : List String) :
    List Char → List String
  | [] =>
      if (jsTrim ⟨cur⟩) ≠ "" then acc ++ [jsTrim ⟨cur⟩] else acc
  | c :: rest =>
      let next := rest.head?
      let inComment1 := if !inQuote && c == '-' && next == some '-' then true else inComment
      let inComment2 := if inComment1 && (c == '\n' || c == '\r') then false else inComment1
      if inComment2 then
        splitGo (some c) inQuote quoteChar inComment2 (cur ++ [c]) acc rest
      else
        let qs : Bool × Char :=
          if (c == '\'' || c == '"') && prev != some '\\' then
            if !inQuote then (true, c)
            else if c == quoteChar then (false, quoteChar)
            else (inQuote, quoteChar)
          else (inQuote, quoteChar)
        if c == ';' && !qs.1 then
          let acc1 := if (jsTrim ⟨cur⟩) ≠ "" then acc ++ [jsTrim ⟨cur⟩] else acc
          splitGo (some c) qs.1 qs.2 inComment2 [] acc1 rest
        else
          splitGo (some c) qs.1 qs.2 inComment2 (cur ++ [c]) acc rest

/-- `DDLParser.splitStatements`. -/
def splitStatements (ddl : String) : List String :=
  (splitGo none false ' ' false [] [] ddl.data).filter
    (fun stmt => (jsTrim stmt).length > 0)

/-! ## Embedded regular expressions

Helper scanners over `List Char`.  Every JavaScript regex in the parser is
embedded as a dedicated function built from these; in each case the pattern's
backtracking behaviour is deterministic (alternatives have disjoint first
sets, greedy repetitions are followed by tokens their character class cannot
start), so a single-pass scanner is faithful; dedicated comments justify the
non-obvious cases. -/

/-- Match a literal case-insensitively (regex `/i` flag on a plain word);
returns the rest of the input. -/
def stripLitCI : List Char → List Char → Option (List Char)
  | [], l => some l
  | _ :: _, [] => none
  | p :: ps, c :: cs =>
      if p.toLower == c.toLower then stripLitCI ps cs else none

/-- Match a literal case-sensitively; returns the rest of the input. -/
def stripLit : List Char → List Char → Option (List Char)
  | [], l => some l
  | _ :: _, [] => none
  | p :: ps, c :: cs => if p == c then stripLit ps cs else none

/-- Greedy `\s+`. -/
def stripWs1 : List Char → Option (List Char)
  | [] => none
  | c :: rest => if isJsSpace c then some (rest.dropWhile isJsSpace) else none

/-- Greedy `\s*`. -/
def stripWsStar (l : List Char) : List Char := l.dropWhile isJsSpace

/-- Greedy `[a-zA-Z0-9_]+` (`\w+`); returns the run and the rest. -/
def takeWord1 (l : List Char) : Option (List Char × List Char) :=
  let run := l.takeWhile isWordChar
  if run.isEmpty then none else some (run, l.drop run.length)

/-- Greedy `[^x]+` for a stop character `x`; returns the run and the rest. -/
def takeUntil1 (stop : Char) (l : List Char) : Option (List Char × List Char) :=
  let run := l.takeWhile (fun c => c != stop)
  if run.isEmpty then none else some (run, l.drop run.length)

/-- Greedy `[^x]*`. -/
def takeUntilStar (stop : Char) (l : List Char) : List Char × List Char :=
  let run := l.takeWhile (fun c => c != stop)
  (run, l.drop run.length)

/-- Match a single character. -/
def stripChar (x : Char) : List Char → Option (List Char)
  | [] => none
  | c :: rest => if c == x then some rest else none

/-- Leftmost-match search: try the matcher at position 0, 1, … of the input
(the JavaScript `match`/`test` start-position loop). -/
def firstSome {α : Type} (f : List Char → Option α) : List Char → Option α
  | [] => f []
  | c :: rest =>
      match f (c :: rest) with
      | some a => some a
      | none => firstSome f rest

/-- Match `(TABLE|VIEW|MATERIALIZED_VIEW|DYNAMIC_TABLE|ICEBERG_TABLE)\s+`,
alternatives in source order, each followed by the mandatory whitespace
(backtracking to the next alternative when the whitespace is missing). -/
def stripKindWs (l : List Char) : Option (TableKind × List Char) :=
  match (do let l ← stripLitCI "TABLE".data l; stripWs1 l) with
  | some r => some (.TABLE, r)
  | none =>
  match (do let l ← stripLitCI "VIEW".data l; stripWs1 l) with
  | some r => some (.VIEW, r)
  | none =>
  match (do let l ← stripLitCI "MATERIALIZED_VIEW".data l; stripWs1 l) with
  | some r => some (.MATERIALIZED_VIEW, r)
  | none =>
  match (do let l ← stripLitCI "DYNAMIC_TABLE".data l; stripWs1 l) with
  | some r => some (.DYNAMIC_TABLE, r)
  | none =>
  match (do let l ← stripLitCI "ICEBERG_TABLE".data l; stripWs1 l) with
  | some r => some (.ICEBERG_TABLE, r)
  | none => none

/-- Match `CREATE\s+(OR\s+REPLACE\s+)?` then the kind alternation with its
trailing `\s+`.  When the optional `OR REPLACE` group matched, the remaining
text starts after it; retrying without the group would put a kind keyword at
text beginning with `OR`, which no kind matches, so trying the group first
and falling back is exactly the regex's backtracking. -/
def stripCreateHead (l : List Char) : Option (TableKind × List Char) := do
  let l ← stripLitCI "CREATE".data l
  let l ← stripWs1 l
  match (do
      let l ← stripLitCI "OR".data l
      let l ← stripWs1 l
      let l ← stripLitCI "REPLACE".data l
      let l ← stripWs1 l
      stripKindWs l) with
  | some r => some r
  | none => stripKindWs l

/-- Test of `/CREATE\s+(OR\s+REPLACE\s+)?(TABLE|VIEW|MATERIALIZED_VIEW|DYNAMIC_TABLE|ICEBERG_TABLE)\s+/i`
(`DDLParser.isCreateTableStatement`). -/
def isCreateTableStatement (statement : String) : Bool :=
  (firstSome stripCreateHead statement.data).isSome

/-- Match `ADD\s+(CONSTRAINT\s+\w+\s+)?FOREIGN\s+KEY`.  As with `OR REPLACE`,
text after a matched `CONSTRAINT …` group cannot start with `FOREIGN`ʼs `F`
being reachable by dropping the group (the group's text starts with `C`), so
group-first with fallback is the regex's behaviour. -/
def stripAddFkTail (l : List Char) : Option (List Char) := do
  let l ← stripLitCI "ADD".data l
  let l ← stripWs1 l
  let cont := fun (l : List Char) => do
    let l ← stripLitCI "FOREIGN".data l
    let l ← stripWs1 l
    stripLitCI "KEY".data l
  match (do
      let l ← stripLitCI "CONSTRAINT".data l
      let l ← stripWs1 l
      let (_, l) ← takeWord1 l
      let l ← stripWs1 l
      cont l) with
  | some r => some r
  | none => cont l

/-- Character matched by the JavaScript dot (anything but a line
terminator). -/
def isDotChar (c : Char) : Bool := c != '\n' && c != '\r'

/-- Match `.*X` for a tail matcher `X`: try the splits of the longest
newline-free prefix, longest first (greedy `.*`). -/
def stripDotStarThen {α : Type} (tail : List Char → Option α) (l : List Char) :
    Option α :=
  let maxLen := (l.takeWhile isDotChar).length
  (List.range (maxLen + 1)).foldl
    (fun found k =>
      match found with
      | some r => some r
      | none => tail (l.drop (maxLen - k)))
    none

/-- Test of `/ALTER\s+TABLE.*ADD\s+(CONSTRAINT\s+\w+\s+)?FOREIGN\s+KEY/i`
(`DDLParser.isAlterTableAddForeignKey`).  The JavaScript `.` does not match
line terminators, so `ADD … FOREIGN KEY` must be reached on the same line as
`ALTER TABLE`. -/
def isAlterTableAddForeignKey (statement : String) : Bool :=
  (firstSome
    (fun l => do
      let l ← stripLitCI "ALTER".data l
      let l ← stripWs1 l
      let l ← stripLitCI "TABLE".data l
      stripDotStarThen stripAddFkTail l)
    statement.data).isSome

/-! ## CREATE-statement extraction (DDLParser.parseCreateTable helpers) -/

/-- Match one name part `(?:"([^"]+)"|([a-zA-Z0-9_]+))`: a quoted part (its
capture is everything up to the next quote, dots included) or a bare
identifier run.  Returns the captured content. -/
def stripNamePart (l : List Char) : Option (List Char × List Char) :=
  match (do
      let l ← stripChar '"' l
      let (content, l) ← takeUntil1 '"' l
      let l ← stripChar '"' l
      pure (content, l)) with
  | some r => some r
  | none => takeWord1 l

/-- Match an optional `(?:\.(?:"([^"]+)"|([a-zA-Z0-9_]+)))?` part. -/
def stripDotPartOpt (l : List Char) : Option (List Char) × List Char :=
  match (do
      let l ← stripChar '.' l
      stripNamePart l) with
  | some (content, rest) => (some content, rest)
  | none => (none, l)

/-- Match the qualified-name alternation of the `qualifiedNameRegex` in
`parseCreateTable`:

    (?:(?:"([^"]+)"|([a-zA-Z0-9_]+))(?:\.(?:"([^"]+)"|([a-zA-Z0-9_]+)))?(?:\.(?:"([^"]+)"|([a-zA-Z0-9_]+)))?
      |"([^"]+\.[^"]+(?:\.[^"]+)?)"
      |([a-zA-Z0-9_]+\.[a-zA-Z0-9_]+(?:\.[a-zA-Z0-9_]+)?))

The first alternative (groups 3–8) is tried first.  Its quoted branch
captures everything between a pair of quotes, dots included, and its bare
branch with the two optional dot parts covers every bare dotted name, so
whenever the second or third alternative could match, the first already has:
groups 9 and 10 can never be produced, and the `nameMatch[9]`/`nameMatch[10]`
branches of `parseCreateTable` are unreachable.  The embedding therefore
returns the three captured parts of the first alternative. -/
def stripQualifiedName (l : List Char) :
    Option ((List Char × Option (List Char) × Option (List Char)) × List Char) := do
  let (p1, l) ← stripNamePart l
  let (p2, l) := stripDotPartOpt l
  match p2 with
  | none => pure ((p1, none, none), l)
  | some c2 =>
      let (p3, l) := stripDotPartOpt l
      pure ((p1, some c2, p3), l)

/-- Leftmost match of the `typeMatch` regex of `parseCreateTable` (the create
head, capturing the kind; the code upper-cases the captured keyword, which
yields the canonical kind spelling). -/
def matchCreateType (statement : String) : Option TableKind :=
  (firstSome stripCreateHead statement.data).map (·.1)

/-- Leftmost match of the `qualifiedNameRegex` of `parseCreateTable`,
returning the three captured name parts. -/
def matchQualifiedName (statement : String) :
    Option (List Char × Option (List Char) × Option (List Char)) :=
  (firstSome
    (fun l => do
      let (_, l) ← stripCreateHead l
      let (parts, l) ← stripQualifiedName l
      pure (parts, l))
    statement.data).map (·.1)

/-- Replace the first occurrence of `''` by `'` (JavaScript
`.replace(/''/, "'")` without the global flag). -/
def replaceFirstQuotePair : List Char → List Char
  | [] => []
  | ['\''] => ['\'']
  | '\'' :: '\'' :: rest => '\'' :: rest
  | c :: rest => c :: replaceFirstQuotePair rest

/-- Leftmost match of `/COMMENT\s*=\s*'([^']*)'/i` (table comment),
returning the capture. -/
def matchTableComment (statement : String) : Option (List Char) :=
  (firstSome
    (fun l => do
      let l ← stripLitCI "COMMENT".data l
      let l := stripWsStar l
      let l ← stripChar '=' l
      let l := stripWsStar l
      let l ← stripChar '\'' l
      let (content, l) := takeUntilStar '\'' l
      let l ← stripChar '\'' l
      pure (content, l))
    statement.data).map (·.1)

/-- Leftmost match of `/WITH\s+TAG\s+\(([^)]*)\)/i` (table tag clause),
returning the capture. -/
def matchWithTag (statement : String) : Option (List Char) :=
  (firstSome
    (fun l => do
      let l ← stripLitCI "WITH".data l
      let l ← stripWs1 l
      let l ← stripLitCI "TAG".data l
      let l ← stripWs1 l
      let l ← stripChar '(' l
      let (content, l) := takeUntilStar ')' l
      let l ← stripChar ')' l
      pure (content, l))
    statement.data).map (·.1)

/-- One match of `/'([^']+)'\s*=\s*'true'/` (case-sensitive), returning the
capture and the input rest after the whole match (for the `/g` loop). -/
def stripTagPair (l : List Char) : Option (List Char × List Char) := do
  let l ← stripChar '\'' l
  let (name, l) ← takeUntil1 '\'' l
  let l ← stripChar '\'' l
  let l := stripWsStar l
  let l ← stripChar '=' l
  let l := stripWsStar l
  let l ← stripLit "'true'".data l
  pure (name, l)

/-- The `/g` exec loop over `stripTagPair`: all non-overlapping matches, left
to right, each search resuming after the previous match. -/
def tagNamesGo : Nat → List Char → List String
  | 0, _ => []
  | _ + 1, [] =>
      match stripTagPair [] with
      | some (name, _) => [⟨name⟩]
      | none => []
  | fuel + 1, c :: rest =>
      match stripTagPair (c :: rest) with
      | some (name, after) => ⟨name⟩ :: tagNamesGo fuel after
      | none => tagNamesGo fuel rest

/-- Tag names extracted from a tag clause body (`while ((tagMatch =
tagRegex.exec(tagsText)) !== null)` in the source). -/
def tagNames (text : List Char) : List String :=
  tagNamesGo (text.length + 1) text

/-- `DDLParser.extractColumnDefinitions`: the text between the first `(` and
its depth-matched `)`, or the empty string when there is no `(` or no
matching `)`. -/
def extractColumnDefinitions (statement : String) : String :=
  match statement.data.dropWhile (fun c => c != '(') with
  | [] => ""
  | _ :: afterParen => jsTrim ⟨extractGo afterParen 1 []⟩
where
  /-- Scan with a parenthesis-depth counter; unbalanced input yields `[]`
  (the source leaves `endIdx` at `startIdx + 1`). -/
  extractGo : List Char → Nat → List Char → List Char
    | [], _, _ => []
    | c :: rest, depth, acc =>
        let depth' := if c == '(' then depth + 1 else if c == ')' then depth - 1 else depth
        if depth' == 0 then acc.reverse else extractGo rest depth' (c :: acc)

/-! ## Column parsing (DDLParser.parseColumns) -/

/-- Test of `/^(PRIMARY|FOREIGN|UNIQUE)\s+KEY/i` (anchored). -/
def isConstraintLine (line : String) : Bool :=
  (stripConstraintHead line.data).isSome
where
  stripConstraintHead (l : List Char) : Option (List Char) :=
    match (do let l ← stripLitCI "PRIMARY".data l; let l ← stripWs1 l
              stripLitCI "KEY".data l) with
    | some r => some r
    | none =>
    match (do let l ← stripLitCI "FOREIGN".data l; let l ← stripWs1 l
              stripLitCI "KEY".data l) with
    | some r => some r
    | none =>
        do let l ← stripLitCI "UNIQUE".data l; let l ← stripWs1 l
           stripLitCI "KEY".data l

/-- Leftmost match of `/PRIMARY\s+KEY\s*\(([^)]+)\)/i`, returning the
capture. -/
def matchPrimaryKeyClause (columnsSection : String) : Option (List Char) :=
  (firstSome
    (fun l => do
      let l ← stripLitCI "PRIMARY".data l
      let l ← stripWs1 l
      let l ← stripLitCI "KEY".data l
      let l := stripWsStar l
      let l ← stripChar '(' l
      let (content, l) ← takeUntil1 ')' l
      let l ← stripChar ')' l
      pure (content, l))
    columnsSection.data).map (·.1)

/-- Anchored match of `/^(?:"([^"]+)"|([a-zA-Z0-9_]+))\s+/` (column name),
returning the capture. -/
def matchColumnName (line : String) : Option (List Char) := do
  let (name, l) ← stripNamePart line.data
  let _ ← stripWs1 l
  pure name

/-- Leftmost match of `/\s+([a-zA-Z0-9_]+(\([^)]+\))?)/` (column data type),
returning the capture: a word run plus an optional parenthesised parameter
list. -/
def matchColumnType (line : String) : Option (List Char) :=
  (firstSome
    (fun l => do
      let l ← stripWs1 l
      let (word, l) ← takeWord1 l
      match (do
          let l2 ← stripChar '(' l
          let (params, l2) ← takeUntil1 ')' l2
          let l2 ← stripChar ')' l2
          pure (word ++ '(' :: params ++ [')'], l2)) with
      | some r => pure r
      | none => pure (word, l))
    line.data).map (·.1)

/-- Test of `/NOT\s+NULL/i`. -/
def hasNotNull (line : String) : Bool :=
  (firstSome
    (fun l => do
      let l ← stripLitCI "NOT".data l
      let l ← stripWs1 l
      stripLitCI "NULL".data l)
    line.data).isSome

/-- Leftmost match of `/COMMENT\s+'([^']*)'/i` (column comment), returning
the capture. -/
def matchColumnComment (line : String) : Option (List Char) :=
  (firstSome
    (fun l => do
      let l ← stripLitCI "COMMENT".data l
      let l ← stripWs1 l
      let l ← stripChar '\'' l
      let (content, l) := takeUntilStar '\'' l
      let l ← stripChar '\'' l
      pure (content, l))
    statementChars).map (·.1)
where
  statementChars := line.data

/-- Leftmost match of the per-column tag regex built by `parseColumns`:

    ALTER\s+TABLE.*MODIFY\s+COLUMN\s+(?:"name"|name)\s+SET\s+TAG\s+([^;]+)

with the column name interpolated literally (this embedding models names
without regex metacharacters, which is every name `matchColumnName` can
produce bar quoted names containing metacharacters).  A greedy `.*` is
modelled by `stripDotStarThen` trying longest prefixes first. -/
def matchColumnTagClause (name : List Char) (fullStatement : String) :
    Option (List Char) :=
  (firstSome
    (fun l => do
      let l ← stripLitCI "ALTER".data l
      let l ← stripWs1 l
      let l ← stripLitCI "TABLE".data l
      stripDotStarThen
        (fun l => do
          let l ← stripLitCI "MODIFY".data l
          let l ← stripWs1 l
          let l ← stripLitCI "COLUMN".data l
          let l ← stripWs1 l
          let l ← (match (do
              let l ← stripChar '"' l
              let l ← stripLitCI name l
              stripChar '"' l) with
            | some r => some r
            | none => stripLitCI name l)
          let l ← stripWs1 l
          let l ← stripLitCI "SET".data l
          let l ← stripWs1 l
          let l ← stripLitCI "TAG".data l
          let l ← stripWs1 l
          let (content, l) ← takeUntil1 ';' l
          pure (content, l))
        l)
    fullStatement.data).map (·.1)

/-! ## Parser state (the DDLParser object's fields) -/

/-- Model of the JavaScript `Map` from normalized table name to node id:
an association list in insertion order; `set` overwrites in place. -/
abbrev NameMap := List (String × Nat)

/-- JavaScript `Map.set`. -/
def mapSet (m : NameMap) (k : String) (v : Nat) : NameMap :=
  if m.any (fun p => p.1 == k) then
    m.map (fun p => if p.1 == k then (k, v) else p)
  else m ++ [(k, v)]

/-- JavaScript `Map.has`. -/
def mapHas (m : NameMap) (k : String) : Bool := m.any (fun p => p.1 == k)

/-- JavaScript `Map.get`. -/
def mapGet (m : NameMap) (k : String) : Option Nat :=
  (m.find? (fun p => p.1 == k)).map (·.2)

/-- The scratch state of one `DDLParser.parse` call (`nodes`, `edges`,
`tableNames`, plus the id mint). -/
structure ParserState where
  nodes : List ERDNode
  edges : List EdgeType
  tableNames : NameMap
  nextId : Nat
deriving DecidableEq, Repr

/-- String `endsWith` (JavaScript). -/
def strEndsWith (s suffixStr : String) : Bool :=
  List.isSuffixOf suffixStr.data s.data

/-- Remove every `"` character (JavaScript `.replace(/"/g, '')`). -/
def stripQuotes (s : String) : String := ⟨s.data.filter (fun c => c != '"')⟩

/-- JavaScript `split(sep)` then per-element `trim`, `replace(/"/g,'')`,
`toUpperCase` — the column-list normalization used for key columns. -/
def normalizeColumnList (text : List Char) : List String :=
  (jsSplit (String.mk text) ",").map (fun col => jsToUpper (stripQuotes (jsTrim col)))

/-! ## Column parsing (DDLParser.parseColumns) -/

/-- `DDLParser.parseColumns`: split the column block on `,\n`, skip
constraint lines, and extract name, type, nullability, primary-key
membership, comment and tags per line.  `startId` mints the column ids. -/
def parseColumns (columnsSection : String) (fullStatement : String)
    (startId : Nat) : List Column × Nat :=
  let lines := (jsSplit columnsSection ",\n").map jsTrim
  let primaryKeyColumns : List String :=
    match matchPrimaryKeyClause columnsSection with
    | some content => normalizeColumnList content
    | none => []
  lines.foldl
    (fun acc line =>
      if isConstraintLine line then acc
      else
        match matchColumnName line with
        | none => acc
        | some nameChars =>
            let name : String := ⟨nameChars⟩
            let dataType : String :=
              match matchColumnType line with
              | some t => ⟨t⟩
              | none => "VARCHAR"
            let isNullable := !hasNotNull line
            let isPrimaryKey := primaryKeyColumns.contains (jsToUpper name)
            let comment : String :=
              match matchColumnComment line with
              | some c => ⟨replaceFirstQuotePair c⟩
              | none => ""
            let tags : List String :=
              match matchColumnTagClause nameChars fullStatement with
              | some t => tagNames t
              | none => []
            (acc.1 ++ [{ id := acc.2, name := name, dataType := dataType,
                         isPrimaryKey := isPrimaryKey, isForeignKey := false,
                         isNullable := isNullable, comment := some comment,
                         tags := some tags }], acc.2 + 1))
    (([] : List Column), startId)

/-! ## CREATE statement handling (DDLParser.parseCreateTable) -/

/-- `DDLParser.parseCreateTable`: extract kind, qualified name, columns,
comment and tags and append a fresh table node (no-op when the name regex
does not match). -/
def parseCreateTable (st : ParserState) (statement : String) : ParserState :=
  let tableType : TableKind :=
    match matchCreateType statement with
    | some k => k
    | none => .TABLE
  match matchQualifiedName statement with
  | none => st
  | some (p1, p2, p3) =>
      let nameParts : String × String :=
        match p2, p3 with
        | some c2, some c3 =>
            (String.mk p1 ++ "." ++ String.mk c2 ++ "." ++ String.mk c3,
             String.mk c3)
        | some c2, none => (String.mk p1 ++ "." ++ String.mk c2, String.mk c2)
        | none, _ => (String.mk p1, String.mk p1)
      let fullTableName := nameParts.1
      let tableName := nameParts.2
      if tableName == "" then st
      else
        let normalizedTableName := jsToUpper tableName
        let columnsSection := extractColumnDefinitions statement
        let colsAndNext := parseColumns columnsSection statement st.nextId
        let comment : String :=
          match matchTableComment statement with
          | some c => ⟨replaceFirstQuotePair c⟩
          | none => ""
        let tags : List String :=
          match matchWithTag statement with
          | some t => tagNames t
          | none => []
        let nodeId := colsAndNext.2
        { nodes := st.nodes ++ [.table
            { id := nodeId, position := (0, 0),
              data := { label := fullTableName, columns := colsAndNext.1,
                        comment := some comment, tags := some tags,
                        tableType := some tableType } }]
          edges := st.edges
          tableNames := mapSet st.tableNames normalizedTableName nodeId
          nextId := nodeId + 1 }

/-! ## Foreign-key statement handling (DDLParser.parseForeignKeyConstraint) -/

/-- Match the greedy `(?:\.[a-zA-Z0-9_]+)*` tail of a bare dotted name
(fuel-driven; fuel bounds the number of remaining characters). -/
def bareDottedTail : Nat → List Char → List Char → List Char × List Char
  | 0, acc, l => (acc, l)
  | fuel + 1, acc, l =>
      match (do
          let l ← stripChar '.' l
          takeWord1 l) with
      | some (w, rest) => bareDottedTail fuel (acc ++ '.' :: w) rest
      | none => (acc, l)

/-- Match `(?:"([^"]+(?:\.[^"]+)*?)"|([a-zA-Z0-9_]+(?:\.[a-zA-Z0-9_]+)*))`:
a quoted name (capture is everything up to the next quote) or a bare dotted
name.  Returns the captured content. -/
def stripDottedName (l : List Char) : Option (List Char × List Char) :=
  match (do
      let l ← stripChar '"' l
      let (content, l) ← takeUntil1 '"' l
      let l ← stripChar '"' l
      pure (content, l)) with
  | some r => some r
  | none => do
      let (w, rest) ← takeWord1 l
      pure (bareDottedTail rest.length w rest)

/-- Leftmost match of
`/ALTER\s+TABLE\s+(?:"([^"]+(?:\.[^"]+)*?)"|([a-zA-Z0-9_]+(?:\.[a-zA-Z0-9_]+)*))/i`,
returning the captured table name. -/
def matchAlterTableName (statement : String) : Option (List Char) :=
  (firstSome
    (fun l => do
      let l ← stripLitCI "ALTER".data l
      let l ← stripWs1 l
      let l ← stripLitCI "TABLE".data l
      let l ← stripWs1 l
      stripDottedName l)
    statement.data).map (·.1)

/-- Leftmost match of `/FOREIGN\s+KEY\s*\(([^)]+)\)/i`, returning the
capture. -/
def matchFkColumns (statement : String) : Option (List Char) :=
  (firstSome
    (fun l => do
      let l ← stripLitCI "FOREIGN".data l
      let l ← stripWs1 l
      let l ← stripLitCI "KEY".data l
      let l := stripWsStar l
      let l ← stripChar '(' l
      let (content, l) ← takeUntil1 ')' l
      let l ← stripChar ')' l
      pure (content, l))
    statement.data).map (·.1)

/-- Leftmost match of
`/REFERENCES\s+(?:"([^"]+(?:\.[^"]+)*?)"|([a-zA-Z0-9_]+(?:\.[a-zA-Z0-9_]+)*))\s*\(([^)]+)\)/i`,
returning the captured table name and column list. -/
def matchReferences (statement : String) : Option (List Char × List Char) :=
  (firstSome
    (fun l => do
      let l ← stripLitCI "REFERENCES".data l
      let l ← stripWs1 l
      let (name, l) ← stripDottedName l
      let l := stripWsStar l
      let l ← stripChar '(' l
      let (content, l) ← takeUntil1 ')' l
      let l ← stripChar ')' l
      pure ((name, content), l))
    statement.data).map (·.1)

/-- Look a node up by id (`this.nodes.find(node => node.id === id)`). -/
def findNodeById (nodes : List ERDNode) (nid : Nat) : Option ERDNode :=
  nodes.find? (fun n =>
    match n with
    | .table t => t.id == nid
    | .domain d _ => d == nid)

/-- One step of the source's fallback label scan: fix the still-missing
endpoint when the (upper-cased) label equals the full name or ends with
`.<short name>`. -/
def labelScanStep (fullSourceName tableName fullTargetName targetTable : String)
    (acc : Option (Nat × NodeType) × Option (Nat × NodeType)) (n : ERDNode) :
    Option (Nat × NodeType) × Option (Nat × NodeType) :=
  match n with
  | .domain _ _ => acc
  | .table t =>
      let nodeLabel := jsToUpper t.data.label
      let acc1 :=
        if acc.1.isNone &&
            (nodeLabel == jsToUpper fullSourceName ||
              strEndsWith nodeLabel ("." ++ tableName)) then
          (some (t.id, t), acc.2)
        else acc
      if acc1.2.isNone &&
          (nodeLabel == jsToUpper fullTargetName ||
            strEndsWith nodeLabel ("." ++ targetTable)) then
        (acc1.1, some (t.id, t))
      else acc1

/-- The source's fallback label scan: walk the nodes in order, fixing the
still-missing endpoints. -/
def labelScan (nodes : List ERDNode)
    (src : Option (Nat × NodeType)) (tgt : Option (Nat × NodeType))
    (fullSourceName : String) (tableName : String)
    (fullTargetName : String) (targetTable : String) :
    Option (Nat × NodeType) × Option (Nat × NodeType) :=
  nodes.foldl (labelScanStep fullSourceName tableName fullTargetName targetTable)
    (src, tgt)

/-- Mark the first column whose upper-cased name is `columnName` as a
foreign key into `targetLabel`.`targetColumn` (the per-pair mutation of
`parseForeignKeyConstraint`). -/
def markForeignKeyColumn (cols : List Column) (columnName : String)
    (targetLabel : String) (targetColumn : String) : List Column :=
  match cols with
  | [] => []
  | c :: rest =>
      if jsToUpper c.name == columnName then
        { c with isForeignKey := true, referencedTable := some targetLabel,
                 referencedColumn := some targetColumn } :: rest
      else c :: markForeignKeyColumn rest columnName targetLabel targetColumn

/-- Replace the table node with id `nid` by `t` (the in-place object
mutation of the source). -/
def replaceNode (nodes : List ERDNode) (nid : Nat) (t : NodeType) :
    List ERDNode :=
  nodes.map (fun n =>
    match n with
    | .table old => if old.id == nid then .table t else .table old
    | other => other)

/-- The endpoint-resolution step of `parseForeignKeyConstraint`: first the
exact short-name map lookups (used only when both short names are present),
then the label scan for the still-missing endpoints. -/
def fkResolution (st : ParserState) (tableName targetTable fullSourceName
    fullTargetName : String) :
    Option (Nat × NodeType) × Option (Nat × NodeType) :=
  let tier1 : Option (Nat × NodeType) × Option (Nat × NodeType) :=
    if mapHas st.tableNames tableName && mapHas st.tableNames targetTable then
      let sid := (mapGet st.tableNames tableName).getD 0
      let tid := (mapGet st.tableNames targetTable).getD 0
      (match findNodeById st.nodes sid with
        | some (.table t) => some (sid, t)
        | _ => none,
       match findNodeById st.nodes tid with
        | some (.table t) => some (tid, t)
        | _ => none)
    else (none, none)
  if tier1.1.isNone || tier1.2.isNone then
    labelScan st.nodes tier1.1 tier1.2 fullSourceName tableName
      fullTargetName targetTable
  else tier1

/-- `DDLParser.parseForeignKeyConstraint`: extract source table, key columns
and referenced table/columns, resolve both endpoints (exact short-name map
lookup for both, else the label scan), then mark the paired source columns
and append one `one-to-many` edge; on any failure the state is returned
unchanged. -/
def parseForeignKeyConstraint (st : ParserState) (statement : String) :
    ParserState :=
  match matchAlterTableName statement with
  | none => st
  | some fullSourceChars =>
      let fullSourceName : String := ⟨fullSourceChars⟩
      let tableName :=
        jsToUpper (((jsSplit fullSourceName ".").getLast?).getD "")
      match matchFkColumns statement with
      | none => st
      | some sourceColsChars =>
          let sourceCols := normalizeColumnList sourceColsChars
          match matchReferences statement with
          | none => st
          | some (targetChars, targetColsChars) =>
              let fullTargetName : String := ⟨targetChars⟩
              let targetTable :=
                jsToUpper (((jsSplit fullTargetName ".").getLast?).getD "")
              let targetCols := normalizeColumnList targetColsChars
              match fkResolution st tableName targetTable fullSourceName
                  fullTargetName with
              | (some (sourceId, sourceNode), some (targetId, targetNode)) =>
                  let newCols :=
                    (sourceCols.zip targetCols).foldl
                      (fun cols pair =>
                        markForeignKeyColumn cols pair.1
                          targetNode.data.label pair.2)
                      sourceNode.data.columns
                  let newSource : NodeType :=
                    { sourceNode with data := { sourceNode.data with columns := newCols } }
                  let newEdge : EdgeType :=
                    { id := st.nextId, source := sourceId, target := targetId,
                      relationshipType := .oneToMany }
                  { nodes := replaceNode st.nodes sourceId newSource
                    edges := st.edges ++ [newEdge]
                    tableNames := st.tableNames
                    nextId := st.nextId + 1 }
              | _ => st

/-! ## The complete DDL parser (DDLParser.parse) -/

/-- `DDLParser.parse`: split the text into statements, create a node per
CREATE statement, then process the foreign-key statements. -/
def parseDDL (ddl : String) : List ERDNode × List EdgeType :=
  let statements := splitStatements ddl
  let st1 := statements.foldl
    (fun st stmt =>
      if isCreateTableStatement stmt then parseCreateTable st stmt else st)
    ⟨[], [], [], 0⟩
  let st2 := statements.foldl
    (fun st stmt =>
      if isAlterTableAddForeignKey stmt then parseForeignKeyConstraint st stmt
      else st)
    st1
  (st2.nodes, st2.edges)

/-! ## Basic string lemmas -/

theorem strAppend_assoc (a b c : String) : a ++ b ++ c = a ++ (b ++ c) := by
  apply String.ext
  simp [String.data_append, List.append_assoc]

theorem jsToUpper_length (s : String) : (jsToUpper s).length = s.length := by
  show (String.mk (s.data.map Char.toUpper)).data.length = s.data.length
  simp

theorem strLength_append (a b : String) : (a ++ b).length = a.length + b.length := by
  show (a ++ b).data.length = a.data.length + b.data.length
  rw [String.data_append, List.length_append]

/-! ## Claim C10 -/

/-- C10: the generator's output is independent of its relationships argument:
for the same objects, any two relationship lists produce identical text —
foreign-key statements come only from the columns' foreign-key fields. -/
theorem generate_independent_of_edges (nodes : List NodeType)
    (e1 e2 : List EdgeType) : generateDDL nodes e1 = generateDDL nodes e2 := rfl

/-! ## Claim C2 -/

/-- Every generated CREATE statement starts with the fixed keyword `TABLE`
and the formatted table name: helper shape lemma for `generateTableDDL`. -/
theorem generateTableDDL_shape (t : SnowflakeTable) :
    ∃ rest, generateTableDDL t =
      "CREATE OR REPLACE TABLE " ++ formatIdentifier t.name ++ " (" ++ rest := by
  have hdata : (" (\n" : String).data = (" (" : String).data ++ ("\n" : String).data := rfl
  rcases hpk : t.primaryKey with _ | pk
  · refine ⟨"\n" ++ jsJoin ",\n" (t.columns.map (fun column =>
      let colDef := "  " ++ formatIdentifier column.name ++ " " ++ column.dataType
      if !column.isNullable then colDef ++ " NOT NULL" else colDef)) ++ "\n);", ?_⟩
    simp only [generateTableDDL, hpk]
    apply String.ext
    simp [String.data_append, hdata, List.append_assoc]
  · by_cases hlen : pk.length > 0
    · refine ⟨"\n" ++ jsJoin ",\n" (t.columns.map (fun column =>
        let colDef := "  " ++ formatIdentifier column.name ++ " " ++ column.dataType
        if !column.isNullable then colDef ++ " NOT NULL" else colDef)) ++
        (",\n  PRIMARY KEY (" ++ jsJoin ", " (pk.map formatIdentifier) ++ ")") ++
        "\n);", ?_⟩
      simp only [generateTableDDL, hpk, if_pos hlen]
      apply String.ext
      simp [String.data_append, hdata, List.append_assoc]
    · refine ⟨"\n" ++ jsJoin ",\n" (t.columns.map (fun column =>
        let colDef := "  " ++ formatIdentifier column.name ++ " " ++ column.dataType
        if !column.isNullable then colDef ++ " NOT NULL" else colDef)) ++ "\n);", ?_⟩
      simp only [generateTableDDL, hpk, if_neg hlen]
      apply String.ext
      simp [String.data_append, hdata, List.append_assoc]

/-- Example node of kind VIEW used to exhibit the generator ignoring the
object kind. -/
def exViewNode : NodeType :=
  { id := 10, position := (0, 0),
    data := { label := "CUSTOMER_V",
              columns := [{ id := 1, name := "ID", dataType := "INTEGER",
                            isPrimaryKey := false, isForeignKey := false,
                            isNullable := true }],
              tableType := some .VIEW } }

/-- C2 counterexample: for an object of kind VIEW the emitted CREATE
statement does not begin with `CREATE OR REPLACE VIEW`; the generator always
writes `TABLE`. -/
theorem create_statement_kind_counterexample :
    exViewNode.data.tableType = some TableKind.VIEW ∧
    strBeginsWith (generateTableDDL (nodeToTable exViewNode))
      ("CREATE OR REPLACE " ++ TableKind.VIEW.keyword) = false ∧
    strBeginsWith (generateTableDDL (nodeToTable exViewNode))
      "CREATE OR REPLACE TABLE" = true := by
  refine ⟨rfl, ?_, ?_⟩ <;> decide

/-- C2 (amended): for every SchemaObject, the emitted CREATE statement
begins with `CREATE OR REPLACE TABLE` — the keyword `TABLE` regardless of
the object's own kind — followed by the formatted name and an opening
parenthesis. -/
theorem create_statement_head (node : NodeType) :
    ∃ rest, generateTableDDL (nodeToTable node) =
      "CREATE OR REPLACE TABLE " ++ formatIdentifier node.data.label
        ++ " (" ++ rest :=
  generateTableDDL_shape (nodeToTable node)

/-! ## Claim C3 -/

/-- C3 counterexample: the name `dynamic_table` — one of the five object-kind
keywords, which the claim places in the reserved set — is not quoted by the
identifier formatter; it is upper-cased instead.  The code's fixed list
contains `table` and `view` but none of the compound kind keywords. -/
theorem formatIdentifier_kind_keyword_counterexample :
    formatIdentifier "dynamic_table" = "DYNAMIC_TABLE" ∧
    formatIdentifier "dynamic_table" ≠ "\"dynamic_table\"" := by
  constructor <;> decide

/-- The quoted form of a name is never its upper-cased form (two extra
characters). -/
theorem jsToUpper_ne_quoted (name : String) :
    jsToUpper name ≠ "\"" ++ name ++ "\"" := by
  intro h
  have hlen := congrArg String.length h
  rw [jsToUpper_length, strLength_append, strLength_append] at hlen
  have h1 : ("\"" : String).length = 1 := rfl
  rw [h1] at hlen
  omega

/-- The formatter's boolean condition as a proposition. -/
theorem formatCondition_iff (name : String) :
    (hasSpecialChar name || isReservedWord name) = true ↔
      (∃ c ∈ name.data, isWordChar c = false) ∨
        jsToLower name ∈ reservedWords := by
  simp [hasSpecialChar, isReservedWord, List.any_eq_true, List.contains_iff_exists_mem_beq]

/-- C3 (amended): the identifier formatter returns the name wrapped in double
quotes with case untouched exactly when the name contains a character outside
`[A-Za-z0-9_]` or case-insensitively matches the code's fixed reserved-word
list (SQL keywords including `table` and `view`, but not
`materialized_view`, `dynamic_table` or `iceberg_table`); every other name is
returned upper-cased, and the two result forms never coincide. -/
theorem formatIdentifier_characterization (name : String) :
    (formatIdentifier name = "\"" ++ name ++ "\"" ↔
      (∃ c ∈ name.data, isWordChar c = false) ∨
        jsToLower name ∈ reservedWords) ∧
    (formatIdentifier name = jsToUpper name ↔
      ¬ ((∃ c ∈ name.data, isWordChar c = false) ∨
        jsToLower name ∈ reservedWords)) := by
  by_cases hcond : (hasSpecialChar name || isReservedWord name) = true
  · have hp := (formatCondition_iff name).mp hcond
    have hfmt : formatIdentifier name = "\"" ++ name ++ "\"" := by
      simp [formatIdentifier, hcond]
    refine ⟨⟨fun _ => hp, fun _ => hfmt⟩, ⟨fun heq => ?_, fun hnp => absurd hp hnp⟩⟩
    exact absurd (hfmt.symm.trans heq).symm (jsToUpper_ne_quoted name)
  · have hp : ¬ ((∃ c ∈ name.data, isWordChar c = false) ∨
        jsToLower name ∈ reservedWords) := fun hcontra =>
      hcond ((formatCondition_iff name).mpr hcontra)
    have hfmt : formatIdentifier name = jsToUpper name := by
      simp only [formatIdentifier, if_neg hcond]
    refine ⟨⟨fun heq => ?_, fun hpp => absurd hpp hp⟩, ⟨fun _ => hp, fun _ => hfmt⟩⟩
    exact absurd (hfmt.symm.trans heq) (jsToUpper_ne_quoted name)

/-! ## Claim C9 -/

/-- Concatenation of a list of strings in order. -/
def strConcat : List String → String
  | [] => ""
  | x :: xs => x ++ strConcat xs

/-- The accumulator fold of the CREATE loop is plain concatenation in input
order. -/
theorem foldl_create_section (l : List SnowflakeTable) (init : String) :
    l.foldl (fun acc table => acc ++ generateTableDDL table ++ "\n\n") init =
      init ++ strConcat (l.map (fun t => generateTableDDL t ++ "\n\n")) := by
  induction l generalizing init with
  | nil => simp [strConcat]
  | cons x xs ih =>
      rw [List.foldl_cons, ih]
      simp only [List.map_cons, strConcat]
      simp [String.append_assoc]

/-- The accumulator fold of one table's foreign-key loop is plain
concatenation in input order. -/
theorem foldl_fk_inner (tname : String) (fks : List ForeignKeySpec)
    (acc : String) :
    fks.foldl (fun a fk => a ++ generateForeignKeyDDL tname fk ++ "\n\n") acc =
      acc ++ strConcat (fks.map (fun fk => generateForeignKeyDDL tname fk ++ "\n\n")) := by
  induction fks generalizing acc with
  | nil => simp [strConcat]
  | cons x xs ih =>
      rw [List.foldl_cons, ih]
      simp only [List.map_cons, strConcat]
      simp [String.append_assoc]

/-- The foreign-key text contributed by one table. -/
def fkChunk (t : SnowflakeTable) : String :=
  strConcat ((t.foreignKeys.getD []).map
    (fun fk => generateForeignKeyDDL t.name fk ++ "\n\n"))

/-- One step of the foreign-key loop appends that table's chunk. -/
theorem fk_step (t : SnowflakeTable) (acc : String) :
    (match t.foreignKeys with
      | some fks =>
          if fks.length > 0 then
            fks.foldl (fun a fk => a ++ generateForeignKeyDDL t.name fk ++ "\n\n") acc
          else acc
      | none => acc) = acc ++ fkChunk t := by
  rcases h : t.foreignKeys with _ | fks
  · simp [fkChunk, h, strConcat]
  · by_cases hl : fks.length > 0
    · simp [fkChunk, h, if_pos hl, foldl_fk_inner]
    · have hnil : fks = [] := List.length_eq_zero.mp (by omega)
      simp [fkChunk, h, hnil, strConcat, if_neg hl]

/-- The accumulator fold of the foreign-key loop is plain concatenation of
the per-table chunks in input order. -/
theorem foldl_fk_section (l : List SnowflakeTable) (init : String) :
    l.foldl (fun acc table =>
      match table.foreignKeys with
      | some fks =>
          if fks.length > 0 then
            fks.foldl (fun a fk => a ++ generateForeignKeyDDL table.name fk ++ "\n\n") acc
          else acc
      | none => acc) init = init ++ strConcat (l.map fkChunk) := by
  induction l generalizing init with
  | nil => simp [strConcat]
  | cons x xs ih =>
      rw [List.foldl_cons, fk_step, ih]
      simp only [List.map_cons, strConcat]
      simp [String.append_assoc]

/-- C9: within one generate call the output is exactly the per-object CREATE
statements in input object order followed by all foreign-key statements in
input order — every foreign-key statement comes after every CREATE
statement. -/
theorem generate_statement_order (nodes : List NodeType) (edges : List EdgeType) :
    generateDDL nodes edges =
      strConcat ((nodesToTables nodes).map (fun t => generateTableDDL t ++ "\n\n")) ++
      strConcat ((nodesToTables nodes).map fkChunk) := by
  show (DDLGenerator.make nodes edges).generateSnowflakeDDL = _
  unfold DDLGenerator.generateSnowflakeDDL
  rw [foldl_create_section, foldl_fk_section]
  simp [DDLGenerator.make, String.empty_append]

/-! ## Claim C1 -/

/-- Round-trip example input: an object of kind VIEW with a comment, a tag
and a primary-key column. -/
def rtCustomerNode : NodeType :=
  { id := 0, position := (0, 0),
    data := { label := "CUSTOMERS",
              columns := [{ id := 1, name := "ID", dataType := "INTEGER",
                            isPrimaryKey := true, isForeignKey := false,
                            isNullable := false }],
              comment := some "Customer master", tags := some ["pii"],
              tableType := some .VIEW } }

/-- Round-trip example input: an object with a foreign-key column into
`CUSTOMERS`. -/
def rtOrdersNode : NodeType :=
  { id := 2, position := (0, 0),
    data := { label := "ORDERS",
              columns := [{ id := 3, name := "CUST_ID", dataType := "INTEGER",
                            isPrimaryKey := false, isForeignKey := true,
                            isNullable := true,
                            referencedTable := some "CUSTOMERS",
                            referencedColumn := some "ID" }],
              tableType := some .TABLE } }

/-- C1: the round-trip property fails on the code.  For the concrete graph
`[CUSTOMERS (VIEW, comment, tag), ORDERS (foreign key into CUSTOMERS)]`,
parsing the generated DDL yields a graph in which the object kind has
collapsed to TABLE, the comment and tag are gone, no column is a foreign key
and there are no relationships: the generator never emits kinds, comments or
tags (its `nodesToTables` leaves the corresponding `SnowflakeTable` fields
empty), and the parser's `isAlterTableAddForeignKey` regex uses `.*`, which
cannot cross the newline the generator itself places before
`ADD FOREIGN KEY`, so the generator's own foreign-key statements are never
recognized. -/
theorem ddl_roundtrip_failure :
    rtCustomerNode.data.tableType = some TableKind.VIEW ∧
    rtCustomerNode.data.comment = some "Customer master" ∧
    rtCustomerNode.data.tags = some ["pii"] ∧
    (rtOrdersNode.data.columns.any (·.isForeignKey)) = true ∧
    (parseDDL (generateDDL [rtCustomerNode, rtOrdersNode] [])).1.length = 2 ∧
    (parseDDL (generateDDL [rtCustomerNode, rtOrdersNode] [])).2 = [] ∧
    ((parseDDL (generateDDL [rtCustomerNode, rtOrdersNode] [])).1.all
      (fun n => match n with
        | .table t => t.data.tableType == some TableKind.TABLE &&
            t.data.comment == some "" && t.data.tags == some [] &&
            t.data.columns.all (fun c => !c.isForeignKey)
        | _ => false)) = true := by
  refine ⟨rfl, rfl, rfl, ?_, ?_, ?_, ?_⟩ <;> decide


/-! ## Claim C5 -/

/-- One endpoint of a foreign-key statement is unresolvable in the claim's
sense: its short name is not a key of the table map, and no table node's
label matches the full name (case-insensitively) or ends with
`.<short name>`. -/
def endpointUnresolvable (nodes : List ERDNode) (m : NameMap)
    (shortName fullName : String) : Bool :=
  !(mapHas m shortName) &&
    nodes.all (fun n =>
      match n with
      | .table t =>
          !(jsToUpper t.data.label == jsToUpper fullName) &&
            !(strEndsWith (jsToUpper t.data.label) ("." ++ shortName))
      | .domain _ _ => true)

/-- A scan step over a table whose label matches neither source form leaves
the source slot untouched. -/
theorem labelScanStep_fst_of_nomatch (fsn tn ftn tt : String)
    (acc : Option (Nat × NodeType) × Option (Nat × NodeType)) (t : NodeType)
    (h1 : (jsToUpper t.data.label == jsToUpper fsn) = false)
    (h2 : strEndsWith (jsToUpper t.data.label) ("." ++ tn) = false) :
    (labelScanStep fsn tn ftn tt acc (.table t)).1 = acc.1 := by
  unfold labelScanStep
  simp only [h1, h2, Bool.or_self, Bool.and_false, if_neg Bool.false_ne_true]
  split <;> rfl

/-- A scan step over a table whose label matches neither target form leaves
the target slot untouched. -/
theorem labelScanStep_snd_of_nomatch (fsn tn ftn tt : String)
    (acc : Option (Nat × NodeType) × Option (Nat × NodeType)) (t : NodeType)
    (h1 : (jsToUpper t.data.label == jsToUpper ftn) = false)
    (h2 : strEndsWith (jsToUpper t.data.label) ("." ++ tt) = false) :
    (labelScanStep fsn tn ftn tt acc (.table t)).2 = acc.2 := by
  unfold labelScanStep
  simp only [h1, h2, Bool.or_self, Bool.and_false, if_neg Bool.false_ne_true]
  split <;> rfl

/-- The label scan never fills the source slot when no table label matches
the source name. -/
theorem labelScan_fst_none (fsn tn ftn tt : String) (nodes : List ERDNode)
    (acc : Option (Nat × NodeType) × Option (Nat × NodeType))
    (hacc : acc.1 = none)
    (h : nodes.all (fun n =>
      match n with
      | .table t =>
          !(jsToUpper t.data.label == jsToUpper fsn) &&
            !(strEndsWith (jsToUpper t.data.label) ("." ++ tn))
      | .domain _ _ => true) = true) :
    (nodes.foldl (labelScanStep fsn tn ftn tt) acc).1 = none := by
  induction nodes generalizing acc with
  | nil => simpa using hacc
  | cons n rest ih =>
      rw [List.all_cons, Bool.and_eq_true] at h
      rw [List.foldl_cons]
      refine ih _ ?_ h.2
      cases n with
      | domain d l => simpa [labelScanStep] using hacc
      | table t =>
          rw [Bool.and_eq_true, Bool.not_eq_true', Bool.not_eq_true'] at h
          rw [labelScanStep_fst_of_nomatch fsn tn ftn tt acc t h.1.1 h.1.2]
          exact hacc

/-- The label scan never fills the target slot when no table label matches
the target name. -/
theorem labelScan_snd_none (fsn tn ftn tt : String) (nodes : List ERDNode)
    (acc : Option (Nat × NodeType) × Option (Nat × NodeType))
    (hacc : acc.2 = none)
    (h : nodes.all (fun n =>
      match n with
      | .table t =>
          !(jsToUpper t.data.label == jsToUpper ftn) &&
            !(strEndsWith (jsToUpper t.data.label) ("." ++ tt))
      | .domain _ _ => true) = true) :
    (nodes.foldl (labelScanStep fsn tn ftn tt) acc).2 = none := by
  induction nodes generalizing acc with
  | nil => simpa using hacc
  | cons n rest ih =>
      rw [List.all_cons, Bool.and_eq_true] at h
      rw [List.foldl_cons]
      refine ih _ ?_ h.2
      cases n with
      | domain d l => simpa [labelScanStep] using hacc
      | table t =>
          rw [Bool.and_eq_true, Bool.not_eq_true', Bool.not_eq_true'] at h
          rw [labelScanStep_snd_of_nomatch fsn tn ftn tt acc t h.1.1 h.1.2]
          exact hacc

/-- When either endpoint is unresolvable, the two-tier resolution leaves the
corresponding slot empty. -/
theorem fkResolution_unresolved (st : ParserState) (tn tt fsn ftn : String)
    (h : endpointUnresolvable st.nodes st.tableNames tn fsn = true ∨
         endpointUnresolvable st.nodes st.tableNames tt ftn = true) :
    (fkResolution st tn tt fsn ftn).1 = none ∨
      (fkResolution st tn tt fsn ftn).2 = none := by
  rcases h with h | h
  · left
    rw [endpointUnresolvable, Bool.and_eq_true, Bool.not_eq_true'] at h
    unfold fkResolution
    rw [h.1]
    simp only [Bool.false_and, if_neg Bool.false_ne_true, Option.isNone_none,
      Bool.true_or, if_pos rfl]
    exact labelScan_fst_none fsn tn ftn tt st.nodes (none, none) rfl h.2
  · right
    rw [endpointUnresolvable, Bool.and_eq_true, Bool.not_eq_true'] at h
    unfold fkResolution
    rw [h.1]
    simp only [Bool.and_false, if_neg Bool.false_ne_true, Option.isNone_none,
      Bool.true_or, if_pos rfl]
    exact labelScan_snd_none fsn tn ftn tt st.nodes (none, none) rfl h.2

/-- C5: an `ALTER TABLE … ADD FOREIGN KEY` statement whose source or target
table cannot be resolved — its short name is not in the table map, no
table's label equals the full name case-insensitively, and no table's label
ends with `.<short name>` — changes nothing: no relationship is added, no
column flag is touched, no node is created, and no error is raised (the
handler is a total function returning the state unchanged). -/
theorem parseForeignKeyConstraint_unresolved (st : ParserState)
    (statement : String) (srcChars fkChars tgtChars tcChars : List Char)
    (h1 : matchAlterTableName statement = some srcChars)
    (h2 : matchFkColumns statement = some fkChars)
    (h3 : matchReferences statement = some (tgtChars, tcChars))
    (h4 : endpointUnresolvable st.nodes st.tableNames
            (jsToUpper (((jsSplit (String.mk srcChars) ".").getLast?).getD ""))
            (String.mk srcChars) = true ∨
          endpointUnresolvable st.nodes st.tableNames
            (jsToUpper (((jsSplit (String.mk tgtChars) ".").getLast?).getD ""))
            (String.mk tgtChars) = true) :
    parseForeignKeyConstraint st statement = st := by
  have hres := fkResolution_unresolved st
    (jsToUpper (((jsSplit (String.mk srcChars) ".").getLast?).getD ""))
    (jsToUpper (((jsSplit (String.mk tgtChars) ".").getLast?).getD ""))
    (String.mk srcChars) (String.mk tgtChars) h4
  simp only [parseForeignKeyConstraint, h1, h2, h3]
  rcases hp : fkResolution st
      (jsToUpper (((jsSplit (String.mk srcChars) ".").getLast?).getD ""))
      (jsToUpper (((jsSplit (String.mk tgtChars) ".").getLast?).getD ""))
      (String.mk srcChars) (String.mk tgtChars) with ⟨r1, r2⟩
  rw [hp] at hres
  rcases r1 with _ | s1 <;> rcases r2 with _ | s2 <;> simp_all

/-- Concrete table node for the C5 witness. -/
def unresolvedExampleNode : NodeType :=
  { id := 0, position := (0, 0),
    data := { label := "X", columns := [], comment := some "",
              tags := some [], tableType := some .TABLE } }

/-- Concrete state for the C5 witness: one parsed table `X`. -/
def unresolvedExampleState : ParserState :=
  { nodes := [.table unresolvedExampleNode], edges := [],
    tableNames := [("X", 0)], nextId := 1 }

/-- C5 witness: a concrete foreign-key statement referencing the absent
table `NOPE` leaves the state unchanged. -/
theorem parseForeignKeyConstraint_unresolved_witness :
    parseForeignKeyConstraint unresolvedExampleState
      "ALTER TABLE X ADD FOREIGN KEY (A) REFERENCES NOPE (B)" =
      unresolvedExampleState :=
  parseForeignKeyConstraint_unresolved unresolvedExampleState
    "ALTER TABLE X ADD FOREIGN KEY (A) REFERENCES NOPE (B)"
    "X".data "A".data "NOPE".data "B".data
    (by decide) (by decide) (by decide) (Or.inr (by decide))

/-! ## Claim C6 -/

/-- Mapping a function that fixes every member is the identity. -/
theorem listMap_self_of_mem {α : Type} (l : List α) (f : α → α)
    (h : ∀ x ∈ l, f x = x) : l.map f = l := by
  induction l with
  | nil => rfl
  | cons x xs ih =>
      rw [List.map_cons, h x (by simp), ih (fun y hy => h y (by simp [hy]))]

/-- Marking a column preserves every column name. -/
theorem markForeignKeyColumn_names (cols : List Column) (cn tl tc : String) :
    (markForeignKeyColumn cols cn tl tc).map (fun c => jsToUpper c.name) =
      cols.map (fun c => jsToUpper c.name) := by
  induction cols with
  | nil => rfl
  | cons c rest ih =>
      unfold markForeignKeyColumn
      by_cases h : jsToUpper c.name == cn
      · simp [h]
      · simp only [Bool.not_eq_true] at h
        simp [h, ih]

/-- With pairwise-distinct (upper-cased) column names, marking the first
matching column is the same as updating every matching column. -/
theorem markForeignKeyColumn_eq_map (cols : List Column) (cn tl tc : String)
    (hnodup : (cols.map (fun c => jsToUpper c.name)).Nodup) :
    markForeignKeyColumn cols cn tl tc =
      cols.map (fun c =>
        if jsToUpper c.name == cn then
          { c with isForeignKey := true, referencedTable := some tl,
                   referencedColumn := some tc }
        else c) := by
  induction cols with
  | nil => rfl
  | cons c rest ih =>
      rw [List.map_cons, List.nodup_cons] at hnodup
      unfold markForeignKeyColumn
      by_cases h : jsToUpper c.name == cn
      · have hcn : jsToUpper c.name = cn := by simpa using h
        simp only [h, if_pos rfl, List.map_cons, if_true]
        rw [listMap_self_of_mem]
        intro x hx
        have hne : jsToUpper x.name ≠ cn := by
          intro hcontra
          exact hnodup.1 (by
            rw [← hcn] at hcontra
            exact hcontra ▸ List.mem_map_of_mem (fun c => jsToUpper c.name) hx)
        simp [hne]
      · simp only [Bool.not_eq_true] at h
        simp only [h, List.map_cons, Bool.false_eq_true, if_false]
        rw [ih hnodup.2]

/-- Declarative description of the column marking performed by a resolved
foreign-key statement: every source column whose upper-cased name occurs in
the positional pairing becomes a foreign key into the target's label and the
paired target column; all other columns are untouched. -/
def markedColumnsSpec (pairs : List (String × String)) (targetLabel : String)
    (cols : List Column) : List Column :=
  cols.map (fun c =>
    match pairs.find? (fun p => p.1 == jsToUpper c.name) with
    | some p =>
        { c with isForeignKey := true, referencedTable := some targetLabel,
                 referencedColumn := some p.2 }
    | none => c)

/-- The sequential first-match marking fold equals the declarative
description when the column names and the pair keys are duplicate-free. -/
theorem foldl_mark_eq_spec (pairs : List (String × String)) (tl : String)
    (cols : List Column)
    (hcols : (cols.map (fun c => jsToUpper c.name)).Nodup)
    (hpairs : (pairs.map Prod.fst).Nodup) :
    pairs.foldl (fun cs p => markForeignKeyColumn cs p.1 tl p.2) cols =
      markedColumnsSpec pairs tl cols := by
  induction pairs generalizing cols with
  | nil =>
      simp only [List.foldl_nil, markedColumnsSpec, List.find?_nil]
      exact (listMap_self_of_mem cols _ (fun x _ => rfl)).symm
  | cons p ps ih =>
      rw [List.map_cons, List.nodup_cons] at hpairs
      rw [List.foldl_cons]
      rw [ih (markForeignKeyColumn cols p.1 tl p.2)
        (by rw [markForeignKeyColumn_names]; exact hcols) hpairs.2]
      rw [markForeignKeyColumn_eq_map cols p.1 tl p.2 hcols]
      unfold markedColumnsSpec
      rw [List.map_map]
      apply List.map_congr_left
      intro c _
      by_cases h : jsToUpper c.name == p.1
      · have hcn : p.1 = jsToUpper c.name := (beq_iff_eq.mp h).symm
        have hfind : ps.find? (fun q => q.1 == jsToUpper c.name) = none := by
          rw [List.find?_eq_none]
          intro q hq
          simp only [beq_iff_eq]
          intro hcontra
          exact hpairs.1 (by
            rw [hcn]
            exact hcontra ▸ List.mem_map_of_mem Prod.fst hq)
        simp only [Function.comp, h, if_true, List.find?_cons, hcn,
          beq_self_eq_true]
        simp [hfind]
      · simp only [Bool.not_eq_true] at h
        simp only [Function.comp, h, Bool.false_eq_true, if_false,
          List.find?_cons]
        have : (fun (q : String × String) => q.1 == jsToUpper c.name) p = false := by
          rw [beq_eq_false_iff_ne] at h ⊢
          exact fun he => h he.symm
        simp [this]

/-- The source node with its columns replaced by the marked columns. -/
def applyMarkedColumns (n : NodeType) (pairs : List (String × String))
    (tl : String) : NodeType :=
  { n with data := { n.data with columns := markedColumnsSpec pairs tl n.data.columns } }

/-- C6 (amended): when both endpoints of an `ALTER TABLE … ADD FOREIGN KEY`
statement resolve under the parser's two-tier procedure (exact short-name
map lookup for both, else the label-equality/suffix scan), exactly one
Relationship with cardinality one-to-many is appended between the two
resolved objects, and — when the source's upper-cased column names and the
key-column pairing are duplicate-free — each source column matched by the
positional pairing becomes `isForeignKey = true` with `referencedTable` set
to the target node's full label (not its short name) and `referencedColumn`
set to the positionally paired (upper-cased) target column; all other nodes
and the table map are unchanged. -/
theorem parseForeignKeyConstraint_resolved (st : ParserState)
    (statement : String) (srcChars fkChars tgtChars tcChars : List Char)
    (sid tid : Nat) (snode tnode : NodeType)
    (h1 : matchAlterTableName statement = some srcChars)
    (h2 : matchFkColumns statement = some fkChars)
    (h3 : matchReferences statement = some (tgtChars, tcChars))
    (h4 : fkResolution st
            (jsToUpper (((jsSplit (String.mk srcChars) ".").getLast?).getD ""))
            (jsToUpper (((jsSplit (String.mk tgtChars) ".").getLast?).getD ""))
            (String.mk srcChars) (String.mk tgtChars) =
          (some (sid, snode), some (tid, tnode)))
    (h5 : (snode.data.columns.map (fun c => jsToUpper c.name)).Nodup)
    (h6 : (((normalizeColumnList fkChars).zip
        (normalizeColumnList tcChars)).map Prod.fst).Nodup) :
    parseForeignKeyConstraint st statement =
      { nodes := replaceNode st.nodes sid (applyMarkedColumns snode
          ((normalizeColumnList fkChars).zip (normalizeColumnList tcChars))
          tnode.data.label)
        edges := st.edges ++ [EdgeType.mk st.nextId sid tid "" "" .oneToMany]
        tableNames := st.tableNames
        nextId := st.nextId + 1 } := by
  simp only [parseForeignKeyConstraint, h1, h2, h3]
  rw [h4]
  dsimp only
  rw [foldl_mark_eq_spec _ _ _ h5 h6]
  rfl

/-- Input exhibiting the `referencedTable` mismatch: the referenced table is
created with a qualified name, so its label and short name differ. -/
def fkExampleDDL : String :=
  "CREATE TABLE DB.SCH.T (\n  B INT\n);\nCREATE TABLE S (\n  A INT\n);\nALTER TABLE S ADD FOREIGN KEY (A) REFERENCES T (B);"

/-- C6 counterexample: for a target table created as `DB.SCH.T` and
referenced by its short name `T`, the marked source column's
`referencedTable` is the target's full label `DB.SCH.T`, not the short name
`T` the claim requires (the source assigns `targetNode.data.label`).  One
one-to-many relationship is still created. -/
theorem fk_referencedTable_counterexample :
    ((parseDDL fkExampleDDL).1.any (fun n =>
      match n with
      | .table t => t.data.label == "S" &&
          t.data.columns.any (fun c =>
            c.isForeignKey && c.referencedTable == some "DB.SCH.T")
      | .domain _ _ => false)) = true ∧
    ((parseDDL fkExampleDDL).1.all (fun n =>
      match n with
      | .table t => t.data.columns.all
          (fun c => !(c.referencedTable == some "T"))
      | .domain _ _ => true)) = true ∧
    (parseDDL fkExampleDDL).2.length = 1 := by
  refine ⟨?_, ?_, ?_⟩ <;> decide

/-- Source node for the C6 witness. -/
def fkResSrcNode : NodeType :=
  { id := 0, position := (0, 0),
    data := { label := "S",
              columns := [{ id := 10, name := "A", dataType := "INT",
                            isPrimaryKey := false, isForeignKey := false,
                            isNullable := true, comment := some "",
                            tags := some [] }],
              comment := some "", tags := some [], tableType := some .TABLE } }

/-- Target node for the C6 witness. -/
def fkResTgtNode : NodeType :=
  { id := 1, position := (0, 0),
    data := { label := "T",
              columns := [{ id := 11, name := "B", dataType := "INT",
                            isPrimaryKey := false, isForeignKey := false,
                            isNullable := true, comment := some "",
                            tags := some [] }],
              comment := some "", tags := some [], tableType := some .TABLE } }

/-- State for the C6 witness: tables `S` and `T` already parsed. -/
def fkResExampleState : ParserState :=
  { nodes := [.table fkResSrcNode, .table fkResTgtNode], edges := [],
    tableNames := [("S", 0), ("T", 1)], nextId := 2 }

/-- C6 witness: the resolved-case theorem applied to a concrete state and
statement. -/
theorem parseForeignKeyConstraint_resolved_witness :
    parseForeignKeyConstraint fkResExampleState
      "ALTER TABLE S ADD FOREIGN KEY (A) REFERENCES T (B)" =
      { nodes := replaceNode fkResExampleState.nodes 0 (applyMarkedColumns
          fkResSrcNode
          ((normalizeColumnList "A".data).zip (normalizeColumnList "B".data))
          fkResTgtNode.data.label)
        edges := fkResExampleState.edges ++
          [EdgeType.mk fkResExampleState.nextId 0 1 "" "" .oneToMany]
        tableNames := fkResExampleState.tableNames
        nextId := fkResExampleState.nextId + 1 } :=
  parseForeignKeyConstraint_resolved fkResExampleState
    "ALTER TABLE S ADD FOREIGN KEY (A) REFERENCES T (B)"
    "S".data "A".data "T".data "B".data 0 1 fkResSrcNode fkResTgtNode
    (by decide) (by decide) (by decide) (by decide) (by decide) (by decide)

/-! ## Claim C4

Reference characterization of the statement splitter, written from the
spec's description: a scanner state automaton (inside-string with its quote
character, inside-line-comment), the list of split positions — semicolons at
which the automaton is outside both — and cutting the input at exactly those
positions. -/

/-- The scanner state of the splitter automaton. -/
structure ScanState where
  inQuote : Bool
  quoteChar : Char
  inComment : Bool
deriving DecidableEq, Repr

/-- The splitter's per-character state transition: `--` outside a string
starts a line comment, a line break ends it, characters inside a comment are
skipped, and an unescaped quote toggles the string state. -/
def scanStep (prev : Option Char) (st : ScanState) (c : Char)
    (next : Option Char) : ScanState :=
  let ic1 := if !st.inQuote && c == '-' && next == some '-' then true else st.inComment
  let ic2 := if ic1 && (c == '\n' || c == '\r') then false else ic1
  if ic2 then { st with inComment := true }
  else
    let qs : Bool × Char :=
      if (c == '\'' || c == '"') && prev != some '\\' then
        if !st.inQuote then (true, c)
        else if c == st.quoteChar then (false, st.quoteChar)
        else (st.inQuote, st.quoteChar)
      else (st.inQuote, st.quoteChar)
    { inQuote := qs.1, quoteChar := qs.2, inComment := false }

/-- The split positions of the remaining input, relative to its start:
positions of semicolons at which the automaton is outside every string and
comment. -/
def posFrom (prev : Option Char) (st : ScanState) : List Char → List Nat
  | [] => []
  | c :: rest =>
      let tail := (posFrom (some c) (scanStep prev st c rest.head?) rest).map (· + 1)
      if c == ';' && !st.inQuote && !st.inComment then 0 :: tail else tail

/-- The automaton state after the first `i` characters of the input. -/
def scanTo (prev : Option Char) (st : ScanState) : List Char → Nat → ScanState
  | _, 0 => st
  | [], _ + 1 => st
  | c :: rest, i + 1 => scanTo (some c) (scanStep prev st c rest.head?) rest i

/-- Cut a list at the given ascending relative positions, dropping the
boundary characters themselves. -/
def cutAtRel : List Char → List Nat → List (List Char)
  | l, [] => [l]
  | l, p :: ps => l.take p :: cutAtRel (l.drop (p + 1)) (ps.map (fun q => q - (p + 1)))
termination_by _ ps => ps.length
decreasing_by simp

/-- Prepend an already-accumulated fragment to the first segment. -/
def glueHead (cur : List Char) : List (List Char) → List (List Char)
  | [] => [cur]
  | s :: ss => (cur ++ s) :: ss

theorem cutAtRel_ne_nil (l : List Char) (ps : List Nat) : cutAtRel l ps ≠ [] := by
  cases ps <;> simp [cutAtRel]

/-- Cutting after a split boundary at position 0. -/
theorem cutAtRel_cons_zero (c : Char) (rest : List Char) (ps : List Nat) :
    cutAtRel (c :: rest) (0 :: ps.map (· + 1)) = [] :: cutAtRel rest ps := by
  simp only [cutAtRel, List.take_zero, List.drop_succ_cons, List.drop_zero,
    List.map_map]
  congr 1
  have : ps.map ((fun q => q - (0 + 1)) ∘ fun x => x + 1) = ps := by
    apply listMap_self_of_mem
    intro q _
    simp
  rw [this]

/-- Pushing one character from the accumulator into the cut is the same as
shifting every split position by one. -/
theorem glueHead_shift (cur : List Char) (c : Char) (rest : List Char)
    (ps : List Nat) :
    glueHead cur (cutAtRel (c :: rest) (ps.map (· + 1))) =
      glueHead (cur ++ [c]) (cutAtRel rest ps) := by
  cases ps with
  | nil => simp [cutAtRel, glueHead]
  | cons p ps =>
      simp only [List.map_cons, cutAtRel, List.take_succ_cons,
        List.drop_succ_cons, glueHead, List.map_map]
      have hmap : ps.map ((fun q => q - (p + 1 + 1)) ∘ fun x => x + 1) =
          ps.map (fun q => q - (p + 1)) := by
        apply List.map_congr_left
        intro q _
        simp only [Function.comp]
        omega
      rw [hmap, List.append_assoc]
      rfl

/-- Dropping a satisfying prefix leaves a head that fails the predicate. -/
theorem dropWhile_head_false {α : Type} (p : α → Bool) :
    ∀ (l : List α) (c : α) (t : List α), l.dropWhile p = c :: t → p c = false := by
  intro l
  induction l with
  | nil => intro c t h; simp at h
  | cons x xs ih =>
      intro c t h
      by_cases hx : p x = true
      · rw [List.dropWhile_cons_of_pos hx] at h
        exact ih c t h
      · rw [List.dropWhile_cons_of_neg hx] at h
        cases h
        simpa using hx

/-- An element failing the predicate survives `dropWhile`. -/
theorem mem_dropWhile_of_neg {α : Type} (p : α → Bool) (c : α)
    (hc : p c = false) (l : List α) (hmem : c ∈ l) : c ∈ l.dropWhile p := by
  have hsplit := List.takeWhile_append_dropWhile (p := p) (l := l)
  rw [← hsplit] at hmem
  rcases List.mem_append.mp hmem with h | h
  · have := List.mem_takeWhile_imp h
    rw [this] at hc
    cases hc
  · exact h

/-- A list containing a non-whitespace character trims to a non-empty
string. -/
theorem jsTrim_ne_empty_of_mem (l : List Char) (c : Char)
    (hc : c.isWhitespace = false) (hmem : c ∈ l) : jsTrim ⟨l⟩ ≠ "" := by
  intro hcontra
  have hdata : ((((l.dropWhile Char.isWhitespace).reverse).dropWhile
      Char.isWhitespace).reverse) = [] := congrArg String.data hcontra
  have h1 : c ∈ l.dropWhile Char.isWhitespace :=
    mem_dropWhile_of_neg Char.isWhitespace c hc l hmem
  have h2 : c ∈ ((l.dropWhile Char.isWhitespace).reverse).dropWhile
      Char.isWhitespace :=
    mem_dropWhile_of_neg Char.isWhitespace c hc _ (List.mem_reverse.mpr h1)
  have hnil : (List.dropWhile Char.isWhitespace
      (List.dropWhile Char.isWhitespace l).reverse) = [] := by
    have := congrArg List.reverse hdata
    simpa using this
  rw [hnil] at h2
  cases h2

/-- Trimming is stable: the trim of a non-empty trim is non-empty. -/
theorem jsTrim_jsTrim_ne (s : String) (h : jsTrim s ≠ "") :
    jsTrim (jsTrim s) ≠ "" := by
  have hv : (jsTrim s).data =
      (((s.data.dropWhile Char.isWhitespace).reverse).dropWhile
        Char.isWhitespace).reverse := rfl
  rcases hr : ((s.data.dropWhile Char.isWhitespace).reverse).dropWhile
      Char.isWhitespace with _ | ⟨c, t⟩
  · exfalso
    apply h
    apply String.ext
    rw [hv, hr]
    rfl
  · have hc : c.isWhitespace = false := dropWhile_head_false _ _ c t hr
    have hcmem : c ∈ (jsTrim s).data := by
      rw [hv, hr]
      exact List.mem_reverse.mpr (by simp)
    have := jsTrim_ne_empty_of_mem (jsTrim s).data c hc hcmem
    simpa using this

/-- A string is non-empty exactly when its length is positive. -/
theorem strNe_iff_lengthPos (s : String) : s ≠ "" ↔ s.length > 0 := by
  constructor
  · intro h
    rcases hl : s.data with _ | ⟨c, t⟩
    · exact absurd (String.ext (by simpa using hl)) h
    · simp [String.length, hl]
  · intro h hcontra
    rw [hcontra] at h
    simp [String.length] at h

/-- Glueing an empty fragment onto a non-empty cut is the identity. -/
theorem glueHead_nil_of_ne (segs : List (List Char)) (h : segs ≠ []) :
    glueHead [] segs = segs := by
  cases segs with
  | nil => cases h rfl
  | cons s ss => simp [glueHead]

/-- Trim each segment and keep the non-empty results (the splitter's push
discipline). -/
def pushTrimmed (segs : List (List Char)) : List String :=
  (segs.map (fun seg => jsTrim ⟨seg⟩)).filter (fun s => !(s == ""))

/-- One splitter step, reorganized around the `scanStep` automaton: the
recursion continues with the stepped state, splitting exactly on an outside
semicolon. -/
theorem splitGo_cons (prev : Option Char) (q : Bool) (qc : Char) (ic : Bool)
    (cur : List Char) (acc : List String) (c : Char) (rest : List Char) :
    splitGo prev q qc ic cur acc (c :: rest) =
      (let st' := scanStep prev ⟨q, qc, ic⟩ c rest.head?
      if st'.inComment then
        splitGo (some c) st'.inQuote st'.quoteChar st'.inComment (cur ++ [c]) acc rest
      else if c == ';' && !st'.inQuote then
        splitGo (some c) st'.inQuote st'.quoteChar st'.inComment []
          (if jsTrim ⟨cur⟩ ≠ "" then acc ++ [jsTrim ⟨cur⟩] else acc) rest
      else
        splitGo (some c) st'.inQuote st'.quoteChar st'.inComment (cur ++ [c]) acc rest) := by
  simp only [splitGo, scanStep]
  by_cases h2 : (if (if !q && c == '-' && rest.head? == some '-' then true
      else ic) && (c == '\n' || c == '\r') then false
      else (if !q && c == '-' && rest.head? == some '-' then true else ic)) = true
  · rw [h2]
    rfl
  · rw [Bool.not_eq_true] at h2
    rw [h2]
    rfl

/-- The splitter fold equals: cut the remaining input at the positions of
outside semicolons (per the `scanStep` automaton), glue the pending
fragment onto the first segment, trim, and keep the non-empty results. -/
theorem splitGo_characterization (l : List Char) :
    ∀ (prev : Option Char) (st : ScanState) (cur : List Char)
      (acc : List String),
    splitGo prev st.inQuote st.quoteChar st.inComment cur acc l =
      acc ++ pushTrimmed (glueHead cur (cutAtRel l (posFrom prev st l))) := by
  induction l with
  | nil =>
      intro prev st cur acc
      simp only [splitGo, posFrom, cutAtRel, glueHead, pushTrimmed,
        List.map_cons, List.map_nil, List.append_nil]
      by_cases h : jsTrim ⟨cur⟩ = ""
      · simp [h, List.filter]
      · simp [h, List.filter, beq_eq_false_iff_ne.mpr h]
  | cons c rest ih =>
      intro prev st cur acc
      rw [splitGo_cons]
      rw [show (⟨st.inQuote, st.quoteChar, st.inComment⟩ : ScanState) = st from rfl]
      simp only [posFrom]
      set st' := scanStep prev st c rest.head? with hst'
      by_cases hcond : (c == ';' && !st.inQuote && !st.inComment) = true
      · have hparts := hcond
        simp only [Bool.and_eq_true, beq_iff_eq, Bool.not_eq_true'] at hparts
        have hc : c = ';' := hparts.1.1
        have hq : st.inQuote = false := hparts.1.2
        have hic : st.inComment = false := hparts.2
        have hstval : st' = ⟨false, st.quoteChar, false⟩ := by
          rw [hst']
          subst hc
          simp [scanStep, hq, hic]
        rw [if_pos hcond, hstval]
        rw [cutAtRel_cons_zero]
        have happ := ih (some c) ⟨false, st.quoteChar, false⟩ []
          (if jsTrim ⟨cur⟩ ≠ "" then acc ++ [jsTrim ⟨cur⟩] else acc)
        simp only at happ
        subst hc
        simp only [if_neg Bool.false_ne_true]
        rw [if_pos (by decide : ((';' == ';' && !false) = true))]
        rw [happ]
        rw [glueHead_nil_of_ne _ (cutAtRel_ne_nil _ _)]
        simp only [glueHead, List.append_nil, pushTrimmed, List.map_cons,
          List.filter_cons]
        by_cases h : jsTrim ⟨cur⟩ = ""
        · simp [h]
        · simp [h]
      · rw [if_neg hcond]
        rw [glueHead_shift]
        by_cases hic' : st'.inComment = true
        · rw [if_pos hic']
          exact ih (some c) st' (cur ++ [c]) acc
        · have hicf : st'.inComment = false := by
            rw [← Bool.not_eq_true]
            exact hic'
          rw [if_neg hic']
          have hsplitf : (c == ';' && !st'.inQuote) = false := by
            by_cases hcq : c = ';'
            · have hq' : st'.inQuote = st.inQuote := by
                rw [hst']
                subst hcq
                by_cases hic0 : st.inComment = true <;> simp [scanStep, hic0]
              have hic0 : st.inComment = false := by
                have : st'.inComment = st.inComment := by
                  rw [hst']
                  subst hcq
                  by_cases hic0 : st.inComment = true <;> simp [scanStep, hic0]
                rw [← this]
                exact hicf
              have hq0 : st.inQuote = true := by
                by_contra hq0
                apply hcond
                subst hcq
                simp [Bool.not_eq_true] at hq0
                simp [hq0, hic0]
              rw [hq', hq0]
              subst hcq
              decide
            · have : (c == ';') = false := by
                rw [beq_eq_false_iff_ne]
                exact hcq
              rw [this, Bool.false_and]
          rw [if_neg (by rw [hsplitf]; exact Bool.false_ne_true)]
          exact ih (some c) st' (cur ++ [c]) acc

/-- Successor membership in a shift-by-one map. -/
theorem mem_map_succ_iff (ps : List Nat) (i : Nat) :
    (i + 1) ∈ ps.map (· + 1) ↔ i ∈ ps := by
  simp only [List.mem_map]
  constructor
  · rintro ⟨a, ha, hai⟩
    have : a = i := by omega
    subst this
    exact ha
  · intro h
    exact ⟨i, h, rfl⟩

/-- The split positions are exactly the semicolons at which the automaton is
outside every string and comment. -/
theorem posFrom_mem_iff (l : List Char) :
    ∀ (prev : Option Char) (st : ScanState) (i : Nat),
    i ∈ posFrom prev st l ↔
      (l.get? i = some ';' ∧ (scanTo prev st l i).inQuote = false ∧
        (scanTo prev st l i).inComment = false) := by
  induction l with
  | nil =>
      intro prev st i
      simp [posFrom]
  | cons c rest ih =>
      intro prev st i
      simp only [posFrom]
      by_cases hcond : (c == ';' && !st.inQuote && !st.inComment) = true
      · have hparts := hcond
        simp only [Bool.and_eq_true, beq_iff_eq, Bool.not_eq_true'] at hparts
        rw [if_pos hcond]
        cases i with
        | zero => simp [scanTo, hparts.1.1, hparts.1.2, hparts.2]
        | succ i =>
            rw [List.mem_cons, mem_map_succ_iff,
              ih (some c) (scanStep prev st c rest.head?) i]
            simp [scanTo]
      · rw [if_neg hcond]
        cases i with
        | zero =>
            simp only [List.mem_map]
            constructor
            · rintro ⟨a, _, ha⟩
              omega
            · rintro ⟨hc, hq, hic⟩
              exfalso
              apply hcond
              have hcc : c = ';' := by
                simpa using hc
              simp only [scanTo] at hq hic
              simp [hcc, hq, hic]
        | succ i =>
            rw [mem_map_succ_iff, ih (some c) (scanStep prev st c rest.head?) i]
            simp [scanTo]

/-- C4: the statement splitter cuts the input at exactly the semicolons
that occur outside single- or double-quoted strings (a quote preceded by a
backslash does not toggle string state) and outside `--` line comments:
the split text is the input cut at the `posFrom` positions (then trimmed,
dropping empties), and a position is a split position precisely when it
holds a `;` at which the `scanStep` automaton is outside every string and
comment — so a semicolon inside a string literal or a line comment never
ends a statement. -/
theorem splitStatements_characterization (ddl : String) :
    splitStatements ddl =
      pushTrimmed (cutAtRel ddl.data
        (posFrom none ⟨false, ' ', false⟩ ddl.data)) ∧
    ∀ i : Nat, i ∈ posFrom none ⟨false, ' ', false⟩ ddl.data ↔
      (ddl.data.get? i = some ';' ∧
        (scanTo none ⟨false, ' ', false⟩ ddl.data i).inQuote = false ∧
        (scanTo none ⟨false, ' ', false⟩ ddl.data i).inComment = false) := by
  constructor
  · have h := splitGo_characterization ddl.data none ⟨false, ' ', false⟩ [] []
    simp only [List.nil_append] at h
    unfold splitStatements
    rw [h, glueHead_nil_of_ne _ (cutAtRel_ne_nil _ _)]
    apply List.filter_eq_self.mpr
    intro s hs
    simp only [pushTrimmed, List.mem_filter, List.mem_map] at hs
    obtain ⟨⟨seg, _, hseg⟩, hne⟩ := hs
    have hsne : s ≠ "" := by
      intro hcontra
      rw [hcontra] at hne
      simp at hne
    have : jsTrim s ≠ "" := by
      rw [← hseg]
      exact jsTrim_jsTrim_ne _ (hseg ▸ hsne)
    simpa using (strNe_iff_lengthPos (jsTrim s)).mp this
  · exact posFrom_mem_iff ddl.data none ⟨false, ' ', false⟩

/-! ## YAML manifest parser (class YAMLParser in src/app/utils/DDLGenerator.ts)

The js-yaml library is an external dependency: its two entry points are
modelled as parameters (`loadAllRes` for `yaml.loadAll`, `loadRes` for
`yaml.load`, an exception being an `Except.error`).  Documents are the typed
shapes the source declares (`DBTModel`, `DBTSource`, …); JavaScript object
tests are a key list plus the decoded `relationships` payload when that
value is truthy. -/

/-- Payload of a `relationships` test (`to`/`field` on columns,
`from`/`column_name` on document-level tests; `to` and `from` are spelled
`toRef` and `fromRef` because both are Lean keywords). -/
structure RelInfo where
  toRef : Option String := none
  field : Option String := none
  fromRef : Option String := none
  column_name : Option String := none
deriving DecidableEq, Repr

/-- One entry of a `tests` list: a bare string or an object with its key
set and, when truthy, its decoded `relationships` value. -/
inductive TestVal where
  | str (s : String)
  | obj (keys : List String) (rel : Option RelInfo)
deriving DecidableEq, Repr

/-- `DBTColumn`. -/
structure DBTColumn where
  name : String
  description : Option String := none
  data_type : Option String := none
  tests : Option (List TestVal) := none
  tags : Option (List String) := none
deriving DecidableEq, Repr

/-- `DBTModel` (`config.materialized` is flattened). -/
structure DBTModel where
  name : Option String := none
  description : Option String := none
  columns : Option (List DBTColumn) := none
  tags : Option (List String) := none
  config_materialized : Option String := none
  raw_sql : Option String := none
deriving DecidableEq, Repr

/-- One table of a `DBTSource`. -/
structure DBTSourceTable where
  name : String
  description : Option String := none
  columns : Option (List DBTColumn) := none
  tags : Option (List String) := none
deriving DecidableEq, Repr

/-- `DBTSource`. -/
structure DBTSource where
  name : String
  description : Option String := none
  tables : Option (List DBTSourceTable) := none
  tags : Option (List String) := none
deriving DecidableEq, Repr

/-- One parsed YAML document. -/
structure YamlDoc where
  models : Option (List DBTModel) := none
  sources : Option (List DBTSource) := none
  tests : Option (List TestVal) := none
  raw_sql : Option String := none
deriving DecidableEq, Repr

/-- `YAMLParser.checkIsPrimaryKey`: a `unique` or `primary_key` test, bare
or as an object key. -/
def checkIsPrimaryKey (column : DBTColumn) : Bool :=
  match column.tests with
  | none => false
  | some tests => tests.any (fun t =>
      match t with
      | .str s => s == "unique" || s == "primary_key"
      | .obj keys _ => keys.contains "unique" || keys.contains "primary_key")

/-- `YAMLParser.checkIsForeignKey`: a `relationships` or `foreign_key`
object key. -/
def checkIsForeignKey (column : DBTColumn) : Bool :=
  match column.tests with
  | none => false
  | some tests => tests.any (fun t =>
      match t with
      | .str _ => false
      | .obj keys _ => keys.contains "relationships" || keys.contains "foreign_key")

/-- `YAMLParser.checkIsNotNull`: a `not_null` test, bare or as an object
key. -/
def checkIsNotNull (column : DBTColumn) : Bool :=
  match column.tests with
  | none => false
  | some tests => tests.any (fun t =>
      match t with
      | .str s => s == "not_null"
      | .obj keys _ => keys.contains "not_null")

/-- JavaScript `a || b || ''` over optional strings. -/
def jsOrStr (a b : Option String) : String :=
  if jsTruthy a then a.getD "" else if jsTruthy b then b.getD "" else ""

/-- JavaScript `col.data_type || 'VARCHAR'`. -/
def dataTypeOrDefault (o : Option String) : String :=
  if jsTruthy o then o.getD "" else "VARCHAR"

/-- The column list built by `createModelNode`, minting ids from
`startId`. -/
def modelColumns : List DBTColumn → Nat → List Column × Nat
  | [], n => ([], n)
  | col :: rest, n =>
      let c : Column :=
        { id := n, name := col.name,
          dataType := dataTypeOrDefault col.data_type,
          isPrimaryKey := checkIsPrimaryKey col,
          isForeignKey := checkIsForeignKey col,
          isNullable := !(checkIsNotNull col),
          comment := some (col.description.getD ""),
          tags := some (col.tags.getD []) }
      let rec' := modelColumns rest (n + 1)
      (c :: rec'.1, rec'.2)

/-- The column list built by `createSourceNodes` for one source table:
`isForeignKey` is hard-coded `false` (`// Will be set later`, which never
happens for source columns). -/
def sourceColumns : List DBTColumn → Nat → List Column × Nat
  | [], n => ([], n)
  | col :: rest, n =>
      let c : Column :=
        { id := n, name := col.name,
          dataType := dataTypeOrDefault col.data_type,
          isPrimaryKey := checkIsPrimaryKey col,
          isForeignKey := false,
          isNullable := !(checkIsNotNull col),
          comment := some (col.description.getD ""),
          tags := some (col.tags.getD []) }
      let rec' := sourceColumns rest (n + 1)
      (c :: rec'.1, rec'.2)

/-- The scratch state of one `YAMLParser.parse` call. -/
structure YState where
  nodes : List ERDNode
  edges : List EdgeType
  modelMap : NameMap
  sourceMap : List (String × NameMap)
  nextId : Nat
deriving DecidableEq, Repr

/-- `YAMLParser.createModelNode`. -/
def createModelNode (st : YState) (m : DBTModel) : YState :=
  if !(jsTruthy m.name) then st
  else
    let name := m.name.getD ""
    let nodeId := st.nextId
    let tableType : TableKind :=
      if jsTruthy m.config_materialized then
        let u := jsToUpper (m.config_materialized.getD "")
        if u == "VIEW" then .VIEW
        else if u == "MATERIALIZED_VIEW" then .MATERIALIZED_VIEW
        else .TABLE
      else .TABLE
    let cols := modelColumns (m.columns.getD []) (nodeId + 1)
    { nodes := st.nodes ++ [.table
        { id := nodeId, position := (0, 0),
          data := { label := name, columns := cols.1,
                    comment := some (m.description.getD ""),
                    tags := some (m.tags.getD []),
                    tableType := some tableType } }]
      edges := st.edges
      modelMap := mapSet st.modelMap name nodeId
      sourceMap := st.sourceMap
      nextId := cols.2 }

/-- Update the inner map of one source in the source map. -/
def sourceMapSet (sm : List (String × NameMap)) (src tbl : String) (v : Nat) :
    List (String × NameMap) :=
  sm.map (fun p => if p.1 == src then (p.1, mapSet p.2 tbl v) else p)

/-- `YAMLParser.createSourceNodes`. -/
def createSourceNodes (st : YState) (s : DBTSource) : YState :=
  match s.tables with
  | none => st
  | some tables =>
      let st0 := { st with sourceMap :=
        (if st.sourceMap.any (fun p => p.1 == s.name) then
          st.sourceMap.map (fun p => if p.1 == s.name then (s.name, []) else p)
        else st.sourceMap ++ [(s.name, [])]) }
      tables.foldl
        (fun st t =>
          let nodeId := st.nextId
          let fullName := s.name ++ "." ++ t.name
          let cols := sourceColumns (t.columns.getD []) (nodeId + 1)
          { nodes := st.nodes ++ [.table
              { id := nodeId, position := (0, 0),
                data := { label := fullName, columns := cols.1,
                          comment := some (jsOrStr t.description s.description),
                          tags := some ((s.tags.getD []) ++ (t.tags.getD [])),
                          tableType := some .TABLE } }]
            edges := st.edges
            modelMap := st.modelMap
            sourceMap := sourceMapSet st.sourceMap s.name t.name nodeId
            nextId := cols.2 })
        st0

/-- Strip one quote character, single or double (the class `['"]`). -/
def stripQuoteAny : List Char → Option (List Char)
  | [] => none
  | c :: rest => if c == '\'' || c == '"' then some rest else none

/-- Greedy `[^'"]+`. -/
def takeUntilQuote1 (l : List Char) : Option (List Char × List Char) :=
  let run := l.takeWhile (fun c => !(c == '\'' || c == '"'))
  if run.isEmpty then none else some (run, l.drop run.length)

/-- Match `ref\s*\(\s*['"]([^'"]+)['"]\s*\)` at the current position,
returning the capture and the rest after the match. -/
def stripRefCall (l : List Char) : Option (List Char × List Char) := do
  let l ← stripLit "ref".data l
  let l := stripWsStar l
  let l ← stripChar '(' l
  let l := stripWsStar l
  let l ← stripQuoteAny l
  let (content, l) ← takeUntilQuote1 l
  let l ← stripQuoteAny l
  let l := stripWsStar l
  let l ← stripChar ')' l
  pure (content, l)

/-- Match `source\s*\(\s*['"]([^'"]+)['"],\s*['"]([^'"]+)['"]\s*\)` at the
current position, returning both captures and the rest after the match. -/
def stripSourceCall (l : List Char) :
    Option ((List Char × List Char) × List Char) := do
  let l ← stripLit "source".data l
  let l := stripWsStar l
  let l ← stripChar '(' l
  let l := stripWsStar l
  let l ← stripQuoteAny l
  let (c1, l) ← takeUntilQuote1 l
  let l ← stripQuoteAny l
  let l ← stripChar ',' l
  let l := stripWsStar l
  let l ← stripQuoteAny l
  let (c2, l) ← takeUntilQuote1 l
  let l ← stripQuoteAny l
  let l := stripWsStar l
  let l ← stripChar ')' l
  pure ((c1, c2), l)

/-- The `/g` exec loop: all non-overlapping leftmost matches, each search
resuming after the previous match. -/
def scanAllGo {α : Type} (f : List Char → Option (α × List Char)) :
    Nat → List Char → List α
  | 0, _ => []
  | _ + 1, [] =>
      match f [] with
      | some (a, _) => [a]
      | none => []
  | fuel + 1, c :: rest =>
      match f (c :: rest) with
      | some (a, after) => a :: scanAllGo f fuel after
      | none => scanAllGo f fuel rest

/-- `YAMLParser.extractRefFromString`: decode a `ref('model')` or
`source('src','table')` expression. -/
def extractRefFromString (refString : String) : Option String :=
  match firstSome stripRefCall refString.data with
  | some (content, _) => some ⟨content⟩
  | none =>
      match firstSome stripSourceCall refString.data with
      | some ((c1, c2), _) => some ((⟨c1⟩ : String) ++ "." ++ (⟨c2⟩ : String))
      | none => none

/-- Append one `one-to-many` relationship edge
(`YAMLParser.createRelationshipEdge`). -/
def addYEdge (st : YState) (s t : Nat) : YState :=
  { st with edges := st.edges ++ [EdgeType.mk st.nextId s t "" "" .oneToMany],
            nextId := st.nextId + 1 }

/-- The `source(...)` edge-creation loop body of
`parseReferencesFromSQL`. -/
def sourceCallEdgeStep (sourceNodeId : Nat) (st : YState)
    (pr : List Char × List Char) : YState :=
  match st.sourceMap.find? (fun p => p.1 == (⟨pr.1⟩ : String)) with
  | some entry =>
      match mapGet entry.2 (⟨pr.2⟩ : String) with
      | some targetId => addYEdge st sourceNodeId targetId
      | none => st
  | none => st

/-- The `ref(...)` edge-creation loop body of `parseReferencesFromSQL`. -/
def refEdgeStep (sourceNodeId : Nat) (st : YState) (name : String) : YState :=
  match mapGet st.modelMap name with
  | some targetId => addYEdge st sourceNodeId targetId
  | none => st

/-- `YAMLParser.parseReferencesFromSQL`: collect every `ref(...)` name, then
create edges for every resolvable `source(...,...)` call, then for every
resolvable collected `ref` name. -/
def parseReferencesFromSQL (st : YState) (sql : String) (sourceNodeId : Nat) :
    YState :=
  let referencedModels := (scanAllGo stripRefCall (sql.data.length + 1)
    sql.data).map (fun content => (⟨content⟩ : String))
  let sourcePairs := scanAllGo stripSourceCall (sql.data.length + 1) sql.data
  referencedModels.foldl (refEdgeStep sourceNodeId)
    (sourcePairs.foldl (sourceCallEdgeStep sourceNodeId) st)

/-- Mark the first column named `colName` as a foreign key (the in-place
mutation of `processModelRelationships`; name matching is exact). -/
def mutateFkColumn (cols : List Column) (colName targetModel field : String) :
    List Column :=
  match cols with
  | [] => []
  | c :: rest =>
      if c.name == colName then
        { c with isForeignKey := true, referencedTable := some targetModel,
                 referencedColumn := some field } :: rest
      else c :: mutateFkColumn rest colName targetModel field

/-- One column-level test step of `processModelRelationships`: on a
`relationships`-style object with a truthy `to` and `field`, resolve the
target model and, on success, create an edge and mark the column. -/
def relTestStep (sourceNodeId : Nat) (colName : String)
    (acc : YState × List Column) (t : TestVal) : YState × List Column :=
  match t with
  | .str _ => acc
  | .obj _ none => acc
  | .obj _ (some relInfo) =>
      if jsTruthy relInfo.toRef && jsTruthy relInfo.field then
        match extractRefFromString (relInfo.toRef.getD "") with
        | some targetModel =>
            if targetModel != "" && mapHas acc.1.modelMap targetModel then
              match mapGet acc.1.modelMap targetModel with
              | some targetNodeId =>
                  (addYEdge acc.1 sourceNodeId targetNodeId,
                   mutateFkColumn acc.2 colName targetModel
                     (relInfo.field.getD ""))
              | none => acc
            else acc
        | none => acc
      else acc

/-- The per-column loop body of `processModelRelationships`: run
`relTestStep` over the column's tests. -/
def relColumnStep (sourceNodeId : Nat) (acc : YState × List Column)
    (column : DBTColumn) : YState × List Column :=
  match column.tests with
  | none => acc
  | some tests => tests.foldl (relTestStep sourceNodeId column.name) acc

/-- `YAMLParser.processModelRelationships`: scan the raw SQL for references,
then process column-level `relationships` tests, marking the matched column
and creating an edge per resolvable target. -/
def processModelRelationships (st : YState) (docRawSql : Option String)
    (m : DBTModel) : YState :=
  if !(jsTruthy m.name) then st
  else
    let name := m.name.getD ""
    if !(mapHas st.modelMap name) then st
    else
      match mapGet st.modelMap name with
      | none => st
      | some sourceNodeId =>
          match findNodeById st.nodes sourceNodeId with
          | some (.table sourceNode0) =>
              let st1 :=
                if jsTruthy docRawSql || jsTruthy m.raw_sql then
                  parseReferencesFromSQL st
                    (if jsTruthy docRawSql then docRawSql.getD ""
                     else m.raw_sql.getD "") sourceNodeId
                else st
              match m.columns with
              | none =>
                  st1
              | some cols =>
                  let res := cols.foldl (relColumnStep sourceNodeId)
                    (st1, sourceNode0.data.columns)
                  let newNode : NodeType :=
                    { sourceNode0 with data := { sourceNode0.data with columns := res.2 } }
                  { res.1 with nodes := replaceNode res.1.nodes sourceNodeId newNode }
          | _ => st

/-- `YAMLParser.processRelationshipTests`: document-level `relationships`
tests create an edge when both referenced models resolve. -/
def processRelationshipTests (st : YState) (tests : List TestVal) : YState :=
  tests.foldl
    (fun st t =>
      match t with
      | .str _ => st
      | .obj _ none => st
      | .obj _ (some r) =>
          if jsTruthy r.toRef && jsTruthy r.fromRef then
            match extractRefFromString (r.fromRef.getD ""),
                extractRefFromString (r.toRef.getD "") with
            | some fromModel, some toModel =>
                if fromModel != "" && toModel != "" &&
                    mapHas st.modelMap fromModel &&
                    mapHas st.modelMap toModel then
                  match mapGet st.modelMap fromModel,
                      mapGet st.modelMap toModel with
                  | some sid, some tid => addYEdge st sid tid
                  | _, _ => st
                else st
            | _, _ => st
          else st)
    st

/-- First pass of `YAMLParser.parse` over one document: create the model
nodes, then the source nodes. -/
def manifestPass1Step (st : YState) (doc : YamlDoc) : YState :=
  let st := match doc.models with
    | some ms => ms.foldl createModelNode st
    | none => st
  match doc.sources with
  | some ss => ss.foldl createSourceNodes st
  | none => st

/-- The state after the first pass of `YAMLParser.parse`. -/
def manifestPass1 (docs : List YamlDoc) : YState :=
  docs.foldl manifestPass1Step ⟨[], [], [], [], 0⟩

/-- Second pass of `YAMLParser.parse` over one document: resolve model
relationships, then the document-level relationship tests. -/
def manifestPass2Step (st : YState) (doc : YamlDoc) : YState :=
  let st := match doc.models with
    | some ms => ms.foldl
        (fun s m => processModelRelationships s doc.raw_sql m) st
    | none => st
  match doc.tests with
  | some ts => processRelationshipTests st ts
  | none => st

/-- `YAMLParser.parse` over already-loaded documents: first pass creates the
model and source nodes, second pass resolves relationships. -/
def parseManifestDocs (docs : List YamlDoc) : List ERDNode × List EdgeType :=
  let st2 := docs.foldl manifestPass2Step (manifestPass1 docs)
  (st2.nodes, st2.edges)

/-- `YAMLParser.splitYAMLDocuments`: try `yaml.loadAll`; on an exception,
fall back to `yaml.load` once; on a second exception return the empty
document list.  The two library calls are modelled by their outcomes. -/
def splitYAMLDocuments (loadAllRes : Except String (List YamlDoc))
    (loadRes : Except String (Option YamlDoc)) : List YamlDoc :=
  match loadAllRes with
  | .ok docs => docs
  | .error _ =>
      match loadRes with
      | .ok (some d) => [d]
      | .ok none => []
      | .error _ => []

/-- `YAMLParser.parse` (`parseManifest`): document processing over the typed
documents is total, so the surrounding `try`/`catch` never fires and the
call always returns a graph. -/
def parseManifest (loadAllRes : Except String (List YamlDoc))
    (loadRes : Except String (Option YamlDoc)) :
    Except String (List ERDNode × List EdgeType) :=
  .ok (parseManifestDocs (splitYAMLDocuments loadAllRes loadRes))

/-! ## Claim C8 -/

/-- C8 counterexample: when both `yaml.loadAll` and the single-document
fallback fail, `parseManifest` does not fail — it returns successfully with
the empty graph. -/
theorem parseManifest_unparseable_counterexample :
    parseManifest (.error "unexpected token") (.error "unexpected token ") =
      Except.ok ([], []) := rfl

/-- C8 (amended): for every pair of loader failures, `parseManifest`
returns `Except.ok` with no objects and no relationships: the exception
handlers inside `splitYAMLDocuments` swallow both errors and yield an empty
document list, so the caller receives an empty graph and no error. -/
theorem parseManifest_unparseable_empty (e1 e2 : String) :
    parseManifest (.error e1) (.error e2) = Except.ok ([], []) := rfl

/-! ## Claim C7 -/

/-- The claim's primary-key condition on one tests entry. -/
def isPkTestEntry : TestVal → Prop
  | .str s => s = "unique" ∨ s = "primary_key"
  | .obj keys _ => "unique" ∈ keys ∨ "primary_key" ∈ keys

/-- The claim's foreign-key condition on one tests entry. -/
def isFkTestEntry : TestVal → Prop
  | .str _ => False
  | .obj keys _ => "relationships" ∈ keys ∨ "foreign_key" ∈ keys

/-- The claim's not-null condition on one tests entry. -/
def isNotNullTestEntry : TestVal → Prop
  | .str s => s = "not_null"
  | .obj keys _ => "not_null" ∈ keys

/-- Example source column carrying a `foreign_key` object test. -/
def exFkSourceColumn : DBTColumn :=
  { name := "ref_id", tests := some [.obj ["foreign_key"] none] }

/-- Example source table holding `exFkSourceColumn`. -/
def exFkSourceTable : DBTSourceTable :=
  { name := "t", columns := some [exFkSourceColumn] }

/-- Example source holding `exFkSourceTable`. -/
def exFkSource : DBTSource :=
  { name := "raw", tables := some [exFkSourceTable] }

/-- Example document declaring only `exFkSource`. -/
def exFkSourceDoc : YamlDoc := { sources := some [exFkSource] }

/-- C7 counterexample: a source-table column whose tests contain a
`foreign_key` object key parses with `isForeignKey = false`, although the
claim requires `true` for every manifest column: `createSourceNodes`
hard-codes `isForeignKey: false` and never consults `checkIsForeignKey`. -/
theorem manifest_source_fk_counterexample :
    checkIsForeignKey exFkSourceColumn = true ∧
    (parseManifestDocs [exFkSourceDoc]).1.length = 1 ∧
    ((parseManifestDocs [exFkSourceDoc]).1.all (fun n =>
      match n with
      | .table t => t.data.columns.all (fun c => !c.isForeignKey)
      | .domain _ _ => true)) = true := by
  refine ⟨rfl, ?_, ?_⟩ <;> decide

/-- One tests entry makes `checkIsPrimaryKey` fire iff it satisfies the
claim's primary-key condition. -/
theorem pk_entry_iff (t : TestVal) :
    (match t with
      | .str s => s == "unique" || s == "primary_key"
      | .obj keys _ => keys.contains "unique" || keys.contains "primary_key")
      = true ↔ isPkTestEntry t := by
  cases t with
  | str s => simp [isPkTestEntry]
  | obj keys r => simp [isPkTestEntry, List.contains_iff_exists_mem_beq]

/-- One tests entry makes `checkIsForeignKey` fire iff it satisfies the
claim's foreign-key condition. -/
theorem fk_entry_iff (t : TestVal) :
    (match t with
      | .str _ => false
      | .obj keys _ =>
          keys.contains "relationships" || keys.contains "foreign_key")
      = true ↔ isFkTestEntry t := by
  cases t with
  | str s => simp [isFkTestEntry]
  | obj keys r => simp [isFkTestEntry, List.contains_iff_exists_mem_beq]

/-- One tests entry makes `checkIsNotNull` fire iff it satisfies the claim's
not-null condition. -/
theorem notnull_entry_iff (t : TestVal) :
    (match t with
      | .str s => s == "not_null"
      | .obj keys _ => keys.contains "not_null") = true ↔
      isNotNullTestEntry t := by
  cases t with
  | str s => simp [isNotNullTestEntry]
  | obj keys r => simp [isNotNullTestEntry, List.contains_iff_exists_mem_beq]

/-- `checkIsPrimaryKey` is true exactly when some tests entry carries
`unique` or `primary_key`, bare or as an object key. -/
theorem checkIsPrimaryKey_iff (col : DBTColumn) :
    checkIsPrimaryKey col = true ↔
      ∃ t ∈ col.tests.getD [], isPkTestEntry t := by
  cases h : col.tests with
  | none => simp [checkIsPrimaryKey, h]
  | some tests =>
      simp only [checkIsPrimaryKey, h, Option.getD_some, List.any_eq_true]
      exact exists_congr (fun t => and_congr_right (fun _ => pk_entry_iff t))

/-- `checkIsForeignKey` is true exactly when some tests entry carries
`relationships` or `foreign_key` as an object key. -/
theorem checkIsForeignKey_iff (col : DBTColumn) :
    checkIsForeignKey col = true ↔
      ∃ t ∈ col.tests.getD [], isFkTestEntry t := by
  cases h : col.tests with
  | none => simp [checkIsForeignKey, h]
  | some tests =>
      simp only [checkIsForeignKey, h, Option.getD_some, List.any_eq_true]
      exact exists_congr (fun t => and_congr_right (fun _ => fk_entry_iff t))

/-- `checkIsNotNull` is true exactly when some tests entry carries
`not_null`, bare or as an object key. -/
theorem checkIsNotNull_iff (col : DBTColumn) :
    checkIsNotNull col = true ↔
      ∃ t ∈ col.tests.getD [], isNotNullTestEntry t := by
  cases h : col.tests with
  | none => simp [checkIsNotNull, h]
  | some tests =>
      simp only [checkIsNotNull, h, Option.getD_some, List.any_eq_true]
      exact exists_congr (fun t => and_congr_right (fun _ => notnull_entry_iff t))

/-- Model-column creation copies the `checkIs*` results into the flags,
column by column (`isNullable` is the negated not-null check). -/
theorem modelColumns_flags (cols : List DBTColumn) (n : Nat) :
    ((modelColumns cols n).1).map
        (fun c => (c.name, c.isPrimaryKey, c.isForeignKey, c.isNullable)) =
      cols.map (fun col =>
        (col.name, checkIsPrimaryKey col, checkIsForeignKey col,
          !checkIsNotNull col)) := by
  induction cols generalizing n with
  | nil => rfl
  | cons c rest ih => simp [modelColumns, ih]

/-- Source-column creation copies the primary-key and nullability checks
but hard-codes `isForeignKey := false`. -/
theorem sourceColumns_flags (cols : List DBTColumn) (n : Nat) :
    ((sourceColumns cols n).1).map
        (fun c => (c.name, c.isPrimaryKey, c.isForeignKey, c.isNullable)) =
      cols.map (fun col =>
        (col.name, checkIsPrimaryKey col, false, !checkIsNotNull col)) := by
  induction cols generalizing n with
  | nil => rfl
  | cons c rest ih => simp [sourceColumns, ih]

/-- The relationship pass may only raise `isForeignKey` from false to true;
every other column field is untouched (`referencedTable`/`referencedColumn`
aside, which accompany the raised flag). -/
def colFkWeaker (c c' : Column) : Prop :=
  c'.id = c.id ∧ c'.name = c.name ∧ c'.dataType = c.dataType ∧
  c'.isPrimaryKey = c.isPrimaryKey ∧ c'.isNullable = c.isNullable ∧
  c'.comment = c.comment ∧ c'.tags = c.tags ∧
  (c'.isForeignKey = c.isForeignKey ∨ c'.isForeignKey = true)

/-- Node-level counterpart of `colFkWeaker`: everything but the columns'
foreign-key markings is untouched. -/
def nodeFkWeaker : ERDNode → ERDNode → Prop
  | .table t, .table t' =>
      t'.id = t.id ∧ t'.position = t.position ∧
      t'.data.label = t.data.label ∧ t'.data.comment = t.data.comment ∧
      t'.data.tags = t.data.tags ∧ t'.data.tableType = t.data.tableType ∧
      List.Forall₂ colFkWeaker t.data.columns t'.data.columns
  | .domain i l, .domain i' l' => i' = i ∧ l' = l
  | _, _ => False

theorem colFkWeaker_refl (c : Column) : colFkWeaker c c :=
  ⟨rfl, rfl, rfl, rfl, rfl, rfl, rfl, Or.inl rfl⟩

theorem colFkWeaker_trans {a b c : Column} (h1 : colFkWeaker a b)
    (h2 : colFkWeaker b c) : colFkWeaker a c := by
  obtain ⟨e1, e2, e3, e4, e5, e6, e7, e8⟩ := h1
  obtain ⟨f1, f2, f3, f4, f5, f6, f7, f8⟩ := h2
  refine ⟨f1.trans e1, f2.trans e2, f3.trans e3, f4.trans e4, f5.trans e5,
    f6.trans e6, f7.trans e7, ?_⟩
  rcases f8 with f8 | f8
  · rw [f8]; exact e8
  · exact Or.inr f8

theorem forall2_colFkWeaker_refl (l : List Column) :
    List.Forall₂ colFkWeaker l l := by
  induction l with
  | nil => exact List.Forall₂.nil
  | cons c rest ih => exact List.Forall₂.cons (colFkWeaker_refl c) ih

theorem forall2_colFkWeaker_trans :
    ∀ {l1 l2 l3 : List Column}, List.Forall₂ colFkWeaker l1 l2 →
      List.Forall₂ colFkWeaker l2 l3 → List.Forall₂ colFkWeaker l1 l3 := by
  intro l1 l2 l3 h1 h2
  induction h1 generalizing l3 with
  | nil => cases h2; exact List.Forall₂.nil
  | cons hab h ih =>
      cases h2 with
      | cons hbc h' => exact List.Forall₂.cons (colFkWeaker_trans hab hbc) (ih h')

theorem nodeFkWeaker_refl (n : ERDNode) : nodeFkWeaker n n := by
  cases n with
  | table t =>
      exact ⟨rfl, rfl, rfl, rfl, rfl, rfl, forall2_colFkWeaker_refl _⟩
  | domain i l => exact ⟨rfl, rfl⟩

theorem nodeFkWeaker_trans {a b c : ERDNode} (h1 : nodeFkWeaker a b)
    (h2 : nodeFkWeaker b c) : nodeFkWeaker a c := by
  cases a with
  | table ta =>
      cases b with
      | table tb =>
          cases c with
          | table tc =>
              obtain ⟨e1, e2, e3, e4, e5, e6, e7⟩ := h1
              obtain ⟨f1, f2, f3, f4, f5, f6, f7⟩ := h2
              exact ⟨f1.trans e1, f2.trans e2, f3.trans e3, f4.trans e4,
                f5.trans e5, f6.trans e6, forall2_colFkWeaker_trans e7 f7⟩
          | domain _ _ => exact h2.elim
      | domain _ _ => exact h1.elim
  | domain i l =>
      cases b with
      | table _ => exact h1.elim
      | domain _ _ =>
          cases c with
          | table _ => exact h2.elim
          | domain _ _ =>
              obtain ⟨e1, e2⟩ := h1
              obtain ⟨f1, f2⟩ := h2
              exact ⟨f1.trans e1, f2.trans e2⟩

/-- Every node of `st'` descends, foreign-key-weakening only, from a node
of `st`. -/
def YWeaker (st st' : YState) : Prop :=
  ∀ n' ∈ st'.nodes, ∃ n ∈ st.nodes, nodeFkWeaker n n'

theorem YWeaker_refl (st : YState) : YWeaker st st :=
  fun n' hn' => ⟨n', hn', nodeFkWeaker_refl n'⟩

theorem YWeaker_trans {a b c : YState} (h1 : YWeaker a b)
    (h2 : YWeaker b c) : YWeaker a c := by
  intro n' hn'
  obtain ⟨m, hm, hw2⟩ := h2 n' hn'
  obtain ⟨n, hn, hw1⟩ := h1 m hm
  exact ⟨n, hn, nodeFkWeaker_trans hw1 hw2⟩

theorem YWeaker_of_nodes_eq {st st' : YState} (h : st'.nodes = st.nodes) :
    YWeaker st st' := by
  intro n' hn'
  rw [h] at hn'
  exact ⟨n', hn', nodeFkWeaker_refl n'⟩

theorem foldl_nodes_eq {β : Type} (f : YState → β → YState)
    (h : ∀ st b, (f st b).nodes = st.nodes) :
    ∀ (l : List β) (st : YState), (l.foldl f st).nodes = st.nodes := by
  intro l
  induction l with
  | nil => intro st; rfl
  | cons b bs ih => intro st; rw [List.foldl_cons, ih, h]

theorem foldl_YWeaker {β : Type} (f : YState → β → YState)
    (h : ∀ st b, YWeaker st (f st b)) :
    ∀ (l : List β) (st : YState), YWeaker st (l.foldl f st) := by
  intro l
  induction l with
  | nil => intro st; exact YWeaker_refl st
  | cons b bs ih => intro st; exact YWeaker_trans (h st b) (ih (f st b))

theorem addYEdge_nodes (st : YState) (s t : Nat) :
    (addYEdge st s t).nodes = st.nodes := rfl

theorem sourceCallEdgeStep_nodes (sid : Nat) (st : YState)
    (pr : List Char × List Char) :
    (sourceCallEdgeStep sid st pr).nodes = st.nodes := by
  unfold sourceCallEdgeStep
  split
  · split <;> rfl
  · rfl

theorem refEdgeStep_nodes (sid : Nat) (st : YState) (name : String) :
    (refEdgeStep sid st name).nodes = st.nodes := by
  unfold refEdgeStep
  split <;> rfl

/-- `parseReferencesFromSQL` only creates edges; the nodes are unchanged. -/
theorem parseReferencesFromSQL_nodes (st : YState) (sql : String) (sid : Nat) :
    (parseReferencesFromSQL st sql sid).nodes = st.nodes := by
  unfold parseReferencesFromSQL
  rw [foldl_nodes_eq _ (refEdgeStep_nodes sid),
    foldl_nodes_eq _ (sourceCallEdgeStep_nodes sid)]

/-- `processRelationshipTests` only creates edges; the nodes are
unchanged. -/
theorem processRelationshipTests_nodes (st : YState) (tests : List TestVal) :
    (processRelationshipTests st tests).nodes = st.nodes := by
  unfold processRelationshipTests
  apply foldl_nodes_eq
  intro st t
  dsimp only
  split
  · rfl
  · rfl
  · split
    · split
      · split
        · split <;> rfl
        · rfl
      · rfl
    · rfl

/-- Marking one column as a foreign key weakens the list column-wise. -/
theorem mutateFkColumn_weaker (cols : List Column) (cn tm f : String) :
    List.Forall₂ colFkWeaker cols (mutateFkColumn cols cn tm f) := by
  induction cols with
  | nil => exact List.Forall₂.nil
  | cons c rest ih =>
      unfold mutateFkColumn
      split
      · exact List.Forall₂.cons
          ⟨rfl, rfl, rfl, rfl, rfl, rfl, rfl, Or.inr rfl⟩
          (forall2_colFkWeaker_refl rest)
      · exact List.Forall₂.cons (colFkWeaker_refl c) ih

theorem foldl_pair_inv {β : Type}
    (f : YState × List Column → β → YState × List Column)
    (h : ∀ a b, (f a b).1.nodes = a.1.nodes ∧
      List.Forall₂ colFkWeaker a.2 (f a b).2) :
    ∀ (l : List β) (a : YState × List Column),
      (l.foldl f a).1.nodes = a.1.nodes ∧
      List.Forall₂ colFkWeaker a.2 (l.foldl f a).2 := by
  intro l
  induction l with
  | nil => intro a; exact ⟨rfl, forall2_colFkWeaker_refl _⟩
  | cons b bs ih =>
      intro a
      have h1 := h a b
      have h2 := ih (f a b)
      exact ⟨h2.1.trans h1.1, forall2_colFkWeaker_trans h1.2 h2.2⟩

theorem relTestStep_inv (sid : Nat) (cn : String)
    (acc : YState × List Column) (t : TestVal) :
    (relTestStep sid cn acc t).1.nodes = acc.1.nodes ∧
    List.Forall₂ colFkWeaker acc.2 (relTestStep sid cn acc t).2 := by
  unfold relTestStep
  split
  · exact ⟨rfl, forall2_colFkWeaker_refl _⟩
  · exact ⟨rfl, forall2_colFkWeaker_refl _⟩
  · split
    · split
      · split
        · split
          · exact ⟨rfl, mutateFkColumn_weaker _ _ _ _⟩
          · exact ⟨rfl, forall2_colFkWeaker_refl _⟩
        · exact ⟨rfl, forall2_colFkWeaker_refl _⟩
      · exact ⟨rfl, forall2_colFkWeaker_refl _⟩
    · exact ⟨rfl, forall2_colFkWeaker_refl _⟩

theorem relColumnStep_inv (sid : Nat) (acc : YState × List Column)
    (column : DBTColumn) :
    (relColumnStep sid acc column).1.nodes = acc.1.nodes ∧
    List.Forall₂ colFkWeaker acc.2 (relColumnStep sid acc column).2 := by
  unfold relColumnStep
  split
  · exact ⟨rfl, forall2_colFkWeaker_refl _⟩
  · exact foldl_pair_inv _ (relTestStep_inv sid _) _ acc

/-- Every node of `replaceNode nodes nid t` descends from a node of the
reference list: either it is untouched and descends from itself, or it is
the replacement `t`, which descends from the witness `t0`. -/
theorem replaceNode_weaker (st : YState) (nodes : List ERDNode)
    (hnodes : nodes = st.nodes) (nid : Nat) (t0 t : NodeType)
    (hmem : ERDNode.table t0 ∈ st.nodes)
    (hw : nodeFkWeaker (ERDNode.table t0) (ERDNode.table t)) :
    ∀ n' ∈ replaceNode nodes nid t, ∃ n ∈ st.nodes, nodeFkWeaker n n' := by
  subst hnodes
  intro n' hn'
  rw [replaceNode, List.mem_map] at hn'
  obtain ⟨n, hn, hEq⟩ := hn'
  cases n with
  | domain i l =>
      exact ⟨.domain i l, hn, hEq ▸ nodeFkWeaker_refl (.domain i l)⟩
  | table old =>
      dsimp only at hEq
      by_cases hid : (old.id == nid) = true
      · rw [if_pos hid] at hEq
        exact ⟨.table t0, hmem, hEq ▸ hw⟩
      · rw [if_neg hid] at hEq
        exact ⟨.table old, hn, hEq ▸ nodeFkWeaker_refl (.table old)⟩

theorem st1_nodes (st : YState) (c : Bool) (sql : String) (sid : Nat) :
    (if c then parseReferencesFromSQL st sql sid else st).nodes = st.nodes := by
  split
  · exact parseReferencesFromSQL_nodes st sql sid
  · rfl

theorem YWeaker_of_forall (st : YState) (ns : List ERDNode)
    (h : ∀ n' ∈ ns, ∃ n ∈ st.nodes, nodeFkWeaker n n') (st2 : YState)
    (hst : st2.nodes = ns) : YWeaker st st2 := by
  intro n' hn'
  rw [hst] at hn'
  exact h n' hn'

/-- Replace a table node's column list, keeping every other field. -/
def withColumns (t : NodeType) (cs : List Column) : NodeType :=
  { t with data := { t.data with columns := cs } }

/-- `processModelRelationships` only weakens the nodes: it possibly raises
`isForeignKey` flags of the processed model's columns, touching nothing
else about any node. -/
theorem processModelRelationships_weaker (st : YState) (raw : Option String)
    (m : DBTModel) : YWeaker st (processModelRelationships st raw m) := by
  simp only [processModelRelationships]
  split
  · exact YWeaker_refl st
  · split
    · exact YWeaker_refl st
    · split
      · exact YWeaker_refl st
      · rename_i sourceNodeId hget
        split
        · rename_i sourceNode0 hfind
          have hmem : ERDNode.table sourceNode0 ∈ st.nodes := by
            unfold findNodeById at hfind
            exact List.mem_of_find?_eq_some hfind
          split
          · exact YWeaker_of_nodes_eq (st1_nodes st _ _ sourceNodeId)
          · rename_i cols hcols
            have hinv := foldl_pair_inv (relColumnStep sourceNodeId)
              (fun a b => relColumnStep_inv sourceNodeId a b) cols
              ((if jsTruthy raw || jsTruthy m.raw_sql then
                  parseReferencesFromSQL st
                    (if jsTruthy raw then raw.getD ""
                     else m.raw_sql.getD "") sourceNodeId
                else st), sourceNode0.data.columns)
            have hnodes := hinv.1.trans (st1_nodes st _ _ sourceNodeId)
            exact YWeaker_of_forall st _
              (replaceNode_weaker st _ hnodes sourceNodeId sourceNode0
                (withColumns sourceNode0
                  (cols.foldl (relColumnStep sourceNodeId)
                    ((if jsTruthy raw || jsTruthy m.raw_sql then
                        parseReferencesFromSQL st
                          (if jsTruthy raw then raw.getD ""
                           else m.raw_sql.getD "") sourceNodeId
                      else st), sourceNode0.data.columns)).2)
                hmem ⟨rfl, rfl, rfl, rfl, rfl, rfl, hinv.2⟩) _ rfl
        · exact YWeaker_refl st

/-- One second-pass document step only weakens the nodes. -/
theorem manifestPass2Step_weaker (st : YState) (doc : YamlDoc) :
    YWeaker st (manifestPass2Step st doc) := by
  unfold manifestPass2Step
  rcases hm : doc.models with _ | ms <;> rcases ht : doc.tests with _ | ts <;>
    simp only [hm, ht]
  · exact YWeaker_refl st
  · exact YWeaker_of_nodes_eq (processRelationshipTests_nodes st ts)
  · exact foldl_YWeaker _
      (fun s m => processModelRelationships_weaker s doc.raw_sql m) ms st
  · exact YWeaker_trans
      (foldl_YWeaker _
        (fun s m => processModelRelationships_weaker s doc.raw_sql m) ms st)
      (YWeaker_of_nodes_eq (processRelationshipTests_nodes _ ts))

/-- The second pass of `YAMLParser.parse` only weakens the first pass's
nodes. -/
theorem parseManifestDocs_weaker (docs : List YamlDoc) :
    ∀ n' ∈ (parseManifestDocs docs).1,
      ∃ n ∈ (manifestPass1 docs).nodes, nodeFkWeaker n n' :=
  foldl_YWeaker manifestPass2Step manifestPass2Step_weaker docs
    (manifestPass1 docs)

/-- C7 (amended): flags are derived from the tests at column creation, with
one repair and one caveat.  (a) `checkIsPrimaryKey` / `checkIsForeignKey` /
`checkIsNotNull` hold exactly under the claim's test conditions; (b) model
columns receive exactly `(checkIsPrimaryKey, checkIsForeignKey,
!checkIsNotNull)` as `(isPrimaryKey, isForeignKey, isNullable)`, but source
columns receive `isForeignKey = false` regardless of their tests; (c) the
later relationship pass can only raise `isForeignKey` from false to true,
leaving names, the other flags, and everything else about every node
unchanged. -/
theorem manifest_flag_derivation :
    (∀ col : DBTColumn,
      (checkIsPrimaryKey col = true ↔
        ∃ t ∈ col.tests.getD [], isPkTestEntry t) ∧
      (checkIsForeignKey col = true ↔
        ∃ t ∈ col.tests.getD [], isFkTestEntry t) ∧
      (checkIsNotNull col = true ↔
        ∃ t ∈ col.tests.getD [], isNotNullTestEntry t)) ∧
    (∀ (cols : List DBTColumn) (n : Nat),
      ((modelColumns cols n).1).map
          (fun c => (c.name, c.isPrimaryKey, c.isForeignKey, c.isNullable)) =
        cols.map (fun col =>
          (col.name, checkIsPrimaryKey col, checkIsForeignKey col,
            !checkIsNotNull col)) ∧
      ((sourceColumns cols n).1).map
          (fun c => (c.name, c.isPrimaryKey, c.isForeignKey, c.isNullable)) =
        cols.map (fun col =>
          (col.name, checkIsPrimaryKey col, false, !checkIsNotNull col))) ∧
    (∀ docs : List YamlDoc, ∀ n' ∈ (parseManifestDocs docs).1,
      ∃ n ∈ (manifestPass1 docs).nodes, nodeFkWeaker n n') :=
  ⟨fun col => ⟨checkIsPrimaryKey_iff col, checkIsForeignKey_iff col,
      checkIsNotNull_iff col⟩,
   fun cols n => ⟨modelColumns_flags cols n, sourceColumns_flags cols n⟩,
   parseManifestDocs_weaker⟩
